import Mathlib

set_option maxRecDepth 100000

/-!
# Verification of the risk-analyser UC processing pipeline

Shallow embedding of the UC (Utilization Certificate) processor of the
`risk-analyser` repository: `config/settings.py` (date normalization) and
`src/process_uc.py` (column detection, month-column mapping, sparse
aggregation, grand totals).

Modelling conventions:
* Spreadsheet cells are `Cell.blank` (pandas `NaN`), `Cell.str s`
  (a string cell), or `Cell.num q` (a numeric cell, value as `ℚ`).
* Python `float` arithmetic is modelled by exact rationals; `round(x, 2)`
  is modelled by `pyRound2` (round-half-to-even at two decimals).
  Binary floating-point representation error is not modelled.
* Python regular expressions used by the source are hand-compiled to
  recursive matchers that follow Python's leftmost, greedy-with-backtracking
  search semantics for these specific patterns.  In the comments below the
  regex slash is escaped (`\/`) purely to keep Lean block comments intact.
-/

namespace RiskAnalyser

/-! ## Character and string utilities (Python `str` semantics over ASCII) -/

/-- Python `\s` for the ASCII range: space, tab, newline, carriage return,
vertical tab, form feed.  Also the character class stripped by `str.strip()`. -/
def isPySpace (c : Char) : Bool :=
  c = ' ' || c = '\t' || c = '\n' || c = '\r' || c = '\x0b' || c = '\x0c'

/-- The separator class `[\s\-\/]` used by the date regexes. -/
def isSepChar (c : Char) : Bool :=
  isPySpace c || c = '-' || c = '/'

def isDigitChar (c : Char) : Bool :=
  '0' ≤ c && c ≤ '9'

/-- `[a-z]` (the inputs are lowercased before the regex runs). -/
def isLowerAlpha (c : Char) : Bool :=
  'a' ≤ c && c ≤ 'z'

/-- `str.strip()` on a character list. -/
def pyStripChars (cs : List Char) : List Char :=
  ((cs.dropWhile isPySpace).reverse.dropWhile isPySpace).reverse

/-- `str.strip()`. -/
def stripStr (s : String) : String :=
  ⟨pyStripChars s.data⟩

/-- `str.lower()` (ASCII). -/
def lowerStr (s : String) : String :=
  ⟨s.data.map Char.toLower⟩

/-- `p` is a prefix of `s` (Python `str.startswith`). -/
def listIsPref : List Char → List Char → Bool
  | [], _ => true
  | _ :: _, [] => false
  | p :: ps, c :: cs => p = c && listIsPref ps cs

/-- Python `pat in hay` substring containment. -/
def containsChars (pat : List Char) : List Char → Bool
  | [] => listIsPref pat []
  | c :: cs => listIsPref pat (c :: cs) || containsChars pat cs

/-- Python `pat in hay` on strings. -/
def strContains (hay pat : String) : Bool :=
  containsChars pat.data hay.data

/-- `str.zfill(2)` for the (nonempty, length ≤ 2) month groups. -/
def zfill2 (cs : List Char) : List Char :=
  if cs.length ≥ 2 then cs else '0' :: cs

/-- Python string comparison: lexicographic on code points.  (Lean's builtin
`String` order is defined through `String.ltb`, which does not reduce in the
kernel, so the pipeline uses this executable equivalent.) -/
def strLeB (a b : String) : Bool :=
  go a.data b.data
where
  go : List Char → List Char → Bool
    | [], _ => true
    | _ :: _, [] => false
    | x :: xs, y :: ys => x.val < y.val || (x = y && go xs ys)

/-! ## `config/settings.py`: constants -/

def BUDGET_HEAD_KEYWORDS : List String := ["budget head", "budget_head", "budget", "head"]
def VENDOR_ROLE_KEYWORDS : List String := ["vendor", "role", "vendor/role", "category", "vendor role"]
def COST_HEAD_KEYWORDS : List String := ["cost head", "cost_head", "cost", "item", "line item"]
def PLAN_KEYWORDS : List String := ["plan", "planned", "budget"]
def CLAIMS_KEYWORDS : List String := ["claim", "actual", "invoice"]
def D365_KEYWORDS : List String := ["d365", "system", "erp"]
def HEADER_SEARCH_ROWS : List Nat := [0, 1, 2, 3, 4, 5]
def SPARSE_STORAGE_ENABLED : Bool := true

/-- `MONTH_ABBREVIATIONS`, in the source's insertion order (Python dicts
iterate in insertion order). -/
def MONTH_ABBREVIATIONS : List (String × String) :=
  [("jan", "01"), ("january", "01"),
   ("feb", "02"), ("february", "02"),
   ("mar", "03"), ("march", "03"),
   ("apr", "04"), ("april", "04"),
   ("may", "05"),
   ("jun", "06"), ("june", "06"),
   ("jul", "07"), ("july", "07"),
   ("aug", "08"), ("august", "08"),
   ("sep", "09"), ("sept", "09"), ("september", "09"),
   ("oct", "10"), ("october", "10"),
   ("nov", "11"), ("november", "11"),
   ("dec", "12"), ("december", "12")]

/-! ## `normalize_month` (settings.py lines 157-227)

The three regexes are compiled by hand, following Python `re.search`
semantics (leftmost match, greedy quantifiers with backtracking):

* Pattern 0 `^(\d{4})[\s\-\/]+(\d{1,2})`: anchored; exactly four leading
  digits (a fifth digit makes the separator class fail, and `{4}` cannot
  backtrack), then a nonempty separator run which must be consumed whole
  (a leftover separator is not a digit), then at least one digit, the
  group taking at most two.
* Pattern 1 `([a-z]+)[\s\-\/]*(\d{2,4})`: a match starting inside a letter
  run succeeds exactly when the match starting at the run's head does, so
  the leftmost match's first group is a full maximal letter run; the
  separator run is consumed whole; the year group takes 2-4 digits.
* Pattern 2 `(\d{1,2})[\s\-\/]+(\d{2,4})`: at a given start, `\d{1,2}`
  (preferring 2) must end exactly where the digit run ends or both
  alternatives leave a digit in front of the separator class; hence a
  start position succeeds iff its digit run has length at most 2 and is
  followed by a nonempty separator run and then at least 2 digits.
-/

/-- Pattern 0, `^(\d{4})[\s\-\/]+(\d{1,2})`: returns (year group, month group). -/
def isoMatch (cs : List Char) : Option (List Char × List Char) :=
  let ds := cs.takeWhile isDigitChar
  if ds.length = 4 then
    let rest := cs.dropWhile isDigitChar
    let seps := rest.takeWhile isSepChar
    if seps.isEmpty then none
    else
      let ds2 := (rest.dropWhile isSepChar).takeWhile isDigitChar
      if ds2.isEmpty then none else some (ds, ds2.take 2)
  else none

/-- `re.search` for pattern 1, `([a-z]+)[\s\-\/]*(\d{2,4})`:
returns (month-text group, year group). -/
def monthYearSearch : List Char → Option (List Char × List Char)
  | [] => none
  | c :: cs =>
    if isLowerAlpha c then
      let letters := c :: cs.takeWhile isLowerAlpha
      let rest := cs.dropWhile isLowerAlpha
      let ds := (rest.dropWhile isSepChar).takeWhile isDigitChar
      if ds.length ≥ 2 then some (letters, ds.take 4)
      else monthYearSearch cs
    else monthYearSearch cs

/-- `re.search` for pattern 2, `(\d{1,2})[\s\-\/]+(\d{2,4})`:
returns (month group, year group). -/
def numericSearch : List Char → Option (List Char × List Char)
  | [] => none
  | c :: cs =>
    if isDigitChar c then
      let ds1 := c :: cs.takeWhile isDigitChar
      let rest := cs.dropWhile isDigitChar
      let seps := rest.takeWhile isSepChar
      if ds1.length ≤ 2 && !seps.isEmpty then
        let ds2 := (rest.dropWhile isSepChar).takeWhile isDigitChar
        if ds2.length ≥ 2 then some (ds1, ds2.take 4)
        else numericSearch cs
      else numericSearch cs
    else numericSearch cs

/-- The `MONTH_ABBREVIATIONS` lookup of `normalize_month`: the first table
entry with `month_text.startswith(abbrev) or abbrev.startswith(month_text)`. -/
def lookupAbbrev (monthText : List Char) : Option String :=
  (MONTH_ABBREVIATIONS.find? fun p =>
    listIsPref p.1.data monthText || listIsPref monthText p.1.data).map Prod.snd

/-- Year normalization shared by patterns 1 and 2: a two-digit year gets a
`20` prefix, otherwise the token is used as is. -/
def normYear (yt : List Char) : List Char :=
  if yt.length = 2 then '2' :: '0' :: yt else yt

/-- The pattern-2 outcome (`month is None` fall-through, settings.py lines
213-227): if the numeric pattern matches, both `month` and `year` are set
from it; otherwise `month` is still `None` and the function returns `None`. -/
def numericFallback (ds : List Char) : Option String :=
  match numericSearch ds with
  | some (mg, yg) => some ⟨normYear yg ++ '-' :: zfill2 mg⟩
  | none => none

/-- `normalize_month` (settings.py lines 157-227).  If pattern 1's regex
matches but the abbreviation lookup fails, `month` stays `None` and the
numeric pattern decides (overwriting `year` if it matches, yielding `None`
otherwise) - hence the shared `numericFallback` branch. -/
def normalize_month (dateString : String) : Option String :=
  if (pyStripChars dateString.data).isEmpty then none
  else
    let ds := (pyStripChars dateString.data).map Char.toLower
    match isoMatch ds with
    | some (y, m) => some ⟨y ++ '-' :: zfill2 m⟩
    | none =>
      match monthYearSearch ds with
      | some (mt, yt) =>
        match lookupAbbrev mt with
        | some m => some ⟨normYear yt ++ '-' :: m.data⟩
        | none => numericFallback ds
      | none => numericFallback ds

/-! ## Monetary rounding (`round_monetary`, settings.py lines 230-243)

Python's `round(x, 2)` rounds half to even.  We model it over exact
rationals; the binary representation error of `float` is not modelled.
`MONETARY_DECIMAL_PLACES = 2`. -/

/-- Floor of a rational as an integer (`q.num.fdiv q.den`), kept explicit so
that it reduces in the kernel. -/
def ratFloor (q : ℚ) : ℤ :=
  q.num.fdiv q.den

/-- Round half to even to the nearest integer (Python `round(x)`). -/
def roundHalfEven (q : ℚ) : ℤ :=
  let f := ratFloor q
  let r := q - (f : ℚ)
  if r < 1/2 then f
  else if 1/2 < r then f + 1
  else if f % 2 = 0 then f else f + 1

/-- `round_monetary` / `round(x, 2)`: round half to even at two decimals. -/
def pyRound2 (q : ℚ) : ℚ :=
  (roundHalfEven (q * 100) : ℚ) / 100

/-! ## Cells and grids

A cleaned `DataFrame` (the output of `clean_dataframe`) is modelled as a
rectangular grid of cells addressed by (row, column), with integer labels
`0..`.  A pandas `NaN` cell is `Cell.blank`; numeric cells carry their value
as `ℚ`.  `pyStr (Cell.num q)` is modelled as `toString q`: the exact float
formatting is not modelled, only that the rendering of a number is a
non-blank string of digits, `-`, `.` and `/`, which contains no column
keyword and no month-name substring. -/

inductive Cell where
  | blank
  | str (s : String)
  | num (q : ℚ)
deriving DecidableEq

structure Grid where
  rows : List (List Cell)

def nRows (g : Grid) : Nat := g.rows.length

def nCols (g : Grid) : Nat := (g.rows.map List.length).foldr max 0

def cellAt (g : Grid) (r c : Nat) : Cell :=
  (g.rows.getD r []).getD c .blank

/-- `pd.isna` on a cell. -/
def pdIsna : Cell → Bool
  | .blank => true
  | _ => false

/-- Python `str()` of a cell's value (see the `Cell` comment for `num`). -/
def pyStr : Cell → String
  | .blank => "nan"
  | .str s => s
  | .num q => toString q

/-! ## `find_column_by_header` (process_uc.py lines 132-157) -/

/-- One cell of the header scan: non-NaN, non-empty after strip+lower, and
containing some keyword.  A numeric cell is rendered as digits (possibly
with `.`, `-`, `/`), which can contain none of the alphabetic keywords used
by the callers, so it never matches. -/
def cellMatchesKeyword (kws : List String) : Cell → Bool
  | .blank => false
  | .num _ => false
  | .str s =>
    let t := lowerStr (stripStr s)
    !t.data.isEmpty && kws.any fun k => strContains t (lowerStr k)

def findColInRow (g : Grid) (kws : List String) (r : Nat) : Option Nat :=
  (List.range (nCols g)).find? fun c => cellMatchesKeyword kws (cellAt g r c)

/-- `find_column_by_header`: scan `HEADER_SEARCH_ROWS` top-down (skipping
rows beyond the sheet), return the first matching column. -/
def find_column_by_header (g : Grid) (kws : List String) : Option Nat :=
  go HEADER_SEARCH_ROWS
where
  go : List Nat → Option Nat
    | [] => none
    | r :: rs =>
      if r < nRows g then
        match findColInRow g kws r with
        | some c => some c
        | none => go rs
      else go rs

/-! ## `find_month_column_map` (process_uc.py lines 160-245) -/

/-- One entry of the month map: the raw headers merged into this key and the
column index recorded for each role.  Each role assignment in the source is
an unconditional dict write, so a later matching column overwrites an
earlier one. -/
structure MonthEntry where
  raw_headers : List String
  plan : Option Nat
  claims : Option Nat
  d365 : Option Nat
deriving DecidableEq

abbrev MonthMap := List (String × MonthEntry)

/-- The month-detection patterns (process_uc.py lines 171-174): `re.search`
of `(?i)(jan|feb|...|dec)` and then of the full-name alternation, used only
as a Boolean test, i.e. case-insensitive substring containment. -/
def hasMonthToken (s : String) : Bool :=
  let t := lowerStr s
  if (MONTH_ABBREVIATIONS.map Prod.fst).filter (fun a => a.length = 3) |>.any (strContains t) then
    true
  else
    ["january", "february", "march", "april", "may", "june", "july", "august",
     "september", "october", "november", "december"].any (strContains t)

/-- The greedy backtracking of `d365\s+(.+)` when all characters after the
whitespace run have been consumed by `\s+`: give the shortest possible
suffix of the run back to `(.+)`, whose first character must not be a
newline.  Returns the captured group (always whitespace in this case). -/
def d365BacktrackGroup (ws : List Char) : Option (List Char) :=
  go ws.reverse 0
where
  go : List Char → Nat → Option (List Char)
    | [], _ => none
    | c :: t, n =>
      if c ≠ '\n' then
        if n + 1 ≤ ws.length - 1 then some ((ws.drop (ws.length - (n + 1))).takeWhile (· ≠ '\n'))
        else none
      else go t (n + 1)

/-- `re.search(r'd365\s+(.+)', cell, re.IGNORECASE)` (process_uc.py line
204): leftmost occurrence of `d365` followed by at least one whitespace
character and one non-newline character; returns group 1. -/
def d365Search : List Char → Option (List Char)
  | [] => none
  | c :: t =>
    if listIsPref "d365".data ((c :: t).map Char.toLower) then
      let after := (c :: t).drop 4
      let ws := after.takeWhile isPySpace
      let rem := after.dropWhile isPySpace
      if !rem.isEmpty then some (rem.takeWhile (· ≠ '\n'))
      else
        match d365BacktrackGroup ws with
        | some grp => some grp
        | none => d365Search t
    else d365Search t

inductive Role where
  | plan
  | claims
  | d365
deriving DecidableEq

/-- The role-keyword `if`/`elif` chain (process_uc.py lines 226-234). -/
def roleOf (cellLower : String) : Option Role :=
  if PLAN_KEYWORDS.any fun k => strContains cellLower k then some .plan
  else if CLAIMS_KEYWORDS.any fun k => strContains cellLower k then some .claims
  else if D365_KEYWORDS.any fun k => strContains cellLower k then some .d365
  else none

/-- Classification of a single header cell (process_uc.py lines 181-224):
skip `NaN`/empty cells and cells without a month token; extract the date
part after `d365` when applicable; normalize; key, raw header, role.
A numeric cell renders to digits and never contains a month token. -/
def headerKey : Cell → Option (String × String × Option Role)
  | .blank => none
  | .num _ => none
  | .str s0 =>
    let s := stripStr s0
    if s.data.isEmpty then none
    else if !hasMonthToken s then none
    else
      let datePart :=
        if strContains (lowerStr s) "d365" then
          match d365Search s.data with
          | some grp => (⟨pyStripChars grp⟩ : String)
          | none => s
        else s
      match normalize_month datePart with
      | none => none
      | some k => some (k, s, roleOf (lowerStr s))

/-- Record one classified header cell into the month map: create the entry
if needed, append the raw header, and (unconditionally) write the role's
column index. -/
def setRole (e : MonthEntry) (role : Option Role) (c : Nat) : MonthEntry :=
  match role with
  | none => e
  | some .plan => { e with plan := some c }
  | some .claims => { e with claims := some c }
  | some .d365 => { e with d365 := some c }

def mmInsert : MonthMap → String → String → Option Role → Nat → MonthMap
  | [], k, raw, role, c =>
    [(k, setRole { raw_headers := [raw], plan := none, claims := none, d365 := none } role c)]
  | (k', e) :: rest, k, raw, role, c =>
    if k' = k then
      (k', setRole { e with raw_headers := e.raw_headers ++ [raw] } role c) :: rest
    else
      (k', e) :: mmInsert rest k raw role c

/-- One column step of the header-row scan. -/
def scanStep (g : Grid) (r : Nat) (mm : MonthMap) (c : Nat) : MonthMap :=
  match headerKey (cellAt g r c) with
  | none => mm
  | some (k, raw, role) => mmInsert mm k raw role c

/-- Scan one header row left to right (process_uc.py lines 180-234). -/
def scanHeaderRow (g : Grid) (r : Nat) : MonthMap :=
  (List.range (nCols g)).foldl (scanStep g r) []

/-- One row step of the month-column search: rows beyond the sheet are
skipped, and once the map is nonempty the remaining rows leave it as is
(the source breaks out of the loop). -/
def fmcmStep (g : Grid) (acc : MonthMap) (r : Nat) : MonthMap :=
  if acc.isEmpty then (if r < nRows g then scanHeaderRow g r else acc) else acc

/-- `find_month_column_map`: the scan of the first row (within the header
search window) that yields any month columns. -/
def find_month_column_map (g : Grid) : MonthMap :=
  HEADER_SEARCH_ROWS.foldl (fmcmStep g) []

/-! ## `clean_value` (process_uc.py lines 263-271) -/

def digitsToNat (cs : List Char) : ℕ :=
  cs.foldl (fun a c => a * 10 + (c.toNat - '0'.toNat)) 0

/-- Python `float()` on a plain decimal literal with optional sign, point
and exponent (after the source has removed commas).  Literals such as
`inf`, `nan` or underscore-grouped digits are out of the modelled scope. -/
def pyFloat? (s : List Char) : Option ℚ :=
  let cs0 := pyStripChars s
  let signAndRest : ℚ × List Char :=
    match cs0 with
    | '-' :: t => (-1, t)
    | '+' :: t => (1, t)
    | _ => (1, cs0)
  let sign := signAndRest.1
  let cs := signAndRest.2
  let ip := cs.takeWhile isDigitChar
  let cs1 := cs.dropWhile isDigitChar
  match cs1 with
  | '.' :: t =>
    let fp := t.takeWhile isDigitChar
    let rest := t.dropWhile isDigitChar
    if ip.isEmpty && fp.isEmpty then none
    else
      (expFactor rest).map fun e =>
        sign * ((digitsToNat ip : ℚ) + (digitsToNat fp : ℚ) / (10 ^ fp.length : ℕ)) * e
  | rest =>
    if ip.isEmpty then none
    else (expFactor rest).map fun e => sign * (digitsToNat ip : ℚ) * e
where
  expFactor : List Char → Option ℚ
    | [] => some 1
    | c :: t =>
      if c = 'e' || c = 'E' then
        let sgnAndDigits : Bool × List Char :=
          match t with
          | '-' :: u => (true, u)
          | '+' :: u => (false, u)
          | _ => (false, t)
        let d := sgnAndDigits.2
        if d.isEmpty || !(d.all isDigitChar) then none
        else if sgnAndDigits.1 then some (1 / (10 ^ digitsToNat d : ℕ))
        else some ((10 ^ digitsToNat d : ℕ) : ℚ)
      else none

/-- `clean_value`: `NaN` is 0; otherwise `str(value).replace(',', '')` is
parsed as a float and rounded, any parse failure giving 0.  A numeric cell
round-trips through its string rendering, so its value is rounded directly. -/
def clean_value : Cell → ℚ
  | .blank => 0
  | .num q => pyRound2 q
  | .str s =>
    match pyFloat? (s.data.filter (· ≠ ',')) with
    | some q => pyRound2 q
    | none => 0

/-! ## `is_non_zero_month` (process_uc.py lines 274-283) and the per-row /
per-month values -/

structure MonthVals where
  planned : ℚ
  claims : ℚ
  d365 : ℚ
  total_spent : ℚ
  variance : ℚ
deriving DecidableEq

def zeroVals : MonthVals := ⟨0, 0, 0, 0, 0⟩

/-- `is_non_zero_month`: with sparse storage enabled, keep a month iff its
planned or total spent is nonzero. -/
def is_non_zero_month (md : MonthVals) : Bool :=
  if !SPARSE_STORAGE_ENABLED then true
  else decide (md.planned ≠ 0 ∨ md.total_spent ≠ 0)

/-- Association-list lookup (Python `dict` access by key). -/
def alookup {β : Type} (k : String) : List (String × β) → Option β
  | [] => none
  | (k', v) :: rest => if k' = k then some v else alookup k rest

def mmGet (mm : MonthMap) (k : String) : MonthEntry :=
  (alookup k mm).getD ⟨[], none, none, none⟩

/-- The per-row per-month values (process_uc.py lines 415-433). -/
def rowMonthVals (g : Grid) (i : Nat) (e : MonthEntry) : MonthVals :=
  let planned := match e.plan with | some c => clean_value (cellAt g i c) | none => 0
  let claims := match e.claims with | some c => clean_value (cellAt g i c) | none => 0
  let d365v := match e.d365 with | some c => clean_value (cellAt g i c) | none => 0
  let ts := pyRound2 (claims + d365v)
  ⟨planned, claims, d365v, ts, pyRound2 (planned - ts)⟩

/-! ## The data-row loop of `process_uc_file` (lines 352-471) -/

structure LineData where
  budget_head : String
  cost_heads : List String
  vendor_role_category : Option String
  total_planned : ℚ
  total_spent : ℚ
  total_variance : ℚ
  monthly_data : List (String × MonthVals)
deriving DecidableEq

/-- Accumulate one contribution into a stored month entry (lines 447-452);
initialization to zeroes (lines 437-444) is covered by `zeroVals`. -/
def mvAccum (cur contrib : MonthVals) : MonthVals :=
  ⟨pyRound2 (cur.planned + contrib.planned),
   pyRound2 (cur.claims + contrib.claims),
   pyRound2 (cur.d365 + contrib.d365),
   pyRound2 (cur.total_spent + contrib.total_spent),
   pyRound2 (cur.variance + contrib.variance)⟩

def mdAccum : List (String × MonthVals) → String → MonthVals → List (String × MonthVals)
  | [], k, mv => [(k, mvAccum zeroVals mv)]
  | (k', v) :: rest, k, mv =>
    if k' = k then (k', mvAccum v mv) :: rest
    else (k', v) :: mdAccum rest k mv

/-- The guarded month-entry fold of one data row (lines 435-452): only
contributions passing `is_non_zero_month` are stored. -/
def mdFold (md contribs : List (String × MonthVals)) : List (String × MonthVals) :=
  contribs.foldl (fun md p => if is_non_zero_month p.2 then mdAccum md p.1 p.2 else md) md

/-- The month loop of one data row plus the line-total updates
(lines 409-467). -/
def lineAfterRow (ln : LineData) (contribs : List (String × MonthVals)) : LineData :=
  let md := mdFold ln.monthly_data contribs
  let ltp := contribs.foldl (fun a p => a + p.2.planned) (0 : ℚ)
  let lts := contribs.foldl (fun a p => a + p.2.total_spent) (0 : ℚ)
  let tp := pyRound2 (ln.total_planned + ltp)
  let ts := pyRound2 (ln.total_spent + lts)
  { ln with
    monthly_data := md
    total_planned := tp
    total_spent := ts
    total_variance := pyRound2 (tp - ts) }

/-- Cost-head recording (lines 469-471): a truthy (non-empty) value is
appended if not already present. -/
def addCostHead (ln : LineData) (chv : Option String) : LineData :=
  match chv with
  | none => ln
  | some s =>
    if s.data.isEmpty then ln
    else if ln.cost_heads.contains s then ln
    else { ln with cost_heads := ln.cost_heads ++ [s] }

/-- Apply `f` to the line stored under `k`, first materializing `init` if
the key is new (Python's initialize-if-absent followed by in-place
mutation). -/
def linesApply : List (String × LineData) → String → LineData → (LineData → LineData) →
    List (String × LineData)
  | [], k, init, f => [(k, f init)]
  | (k', v) :: rest, k, init, f =>
    if k' = k then (k', f v) :: rest
    else (k', v) :: linesApply rest k init f

/-- The budget-line key of a data row (process_uc.py lines 387-392): the
composite `"{budget_head} - {vendor_role}"` exactly when the vendor/role
column exists and the row's vendor cell is non-NaN (`pd.notna`), otherwise
the stripped budget head alone.  (The budget-head cell is non-NaN on every
path reaching this computation.) -/
def rowKey (bh vr : Cell) (hasVrCol : Bool) : String :=
  if !pdIsna bh && hasVrCol && !pdIsna vr then
    stripStr (pyStr bh) ++ " - " ++ stripStr (pyStr vr)
  else stripStr (pyStr bh)

/-- Process one data row (lines 371-471). -/
def processRow (g : Grid) (bhCol : Nat) (vrCol : Option Nat) (chCol : Nat)
    (mm : MonthMap) (monthNames : List String)
    (lines : List (String × LineData)) (i : Nat) : List (String × LineData) :=
  let bh := cellAt g i bhCol
  if pdIsna bh || (stripStr (pyStr bh)).data.isEmpty then lines
  else
    let bhs := lowerStr (pyStr bh)
    if strContains bhs "total" || strContains bhs "subtotal" || strContains bhs "grand" then
      lines
    else
      let vr : Cell := match vrCol with | some c => cellAt g i c | none => .blank
      let ch := cellAt g i chCol
      let key := rowKey bh vr vrCol.isSome
      let chv : Option String := if !pdIsna ch then some (stripStr (pyStr ch)) else none
      let initLine : LineData :=
        { budget_head := stripStr (pyStr bh)
          cost_heads := []
          vendor_role_category := if !pdIsna vr then some (stripStr (pyStr vr)) else none
          total_planned := 0
          total_spent := 0
          total_variance := 0
          monthly_data := [] }
      let contribs := monthNames.map fun m => (m, rowMonthVals g i (mmGet mm m))
      linesApply lines key initLine fun ln => addCostHead (lineAfterRow ln contribs) chv

/-- The full data-row loop, `for i in range(data_start_row, df.shape[0])`. -/
def processRows (g : Grid) (bhCol : Nat) (vrCol : Option Nat) (chCol : Nat)
    (mm : MonthMap) (monthNames : List String) (startRow : Nat) :
    List (String × LineData) :=
  ((List.range (nRows g)).drop startRow).foldl
    (processRow g bhCol vrCol chCol mm monthNames) []

/-! ## Data-start detection (process_uc.py lines 352-364) -/

/-- The exclusion test on a (non-NaN) budget-head cell: still a header
label (`'budget'`/`'head'` substring of its lowercase rendering) or a
row-number marker.  A numeric cell renders to digits and never matches. -/
def headerLikeBH : Cell → Bool
  | .blank => false
  | .num _ => false
  | .str s =>
    let t := lowerStr s
    strContains t "budget" || strContains t "head" || t = "s.no" || t = "sr.no" || t = "#"

def dsQualifies (g : Grid) (bhCol i : Nat) : Bool :=
  !pdIsna (cellAt g i bhCol) && !headerLikeBH (cellAt g i bhCol)

/-- `data_start_row`: the first of rows 0, 1, 2 whose budget-head cell is
non-NaN and not header-like, with fixed fallback 3.  (The source indexes
`df.iloc[i, ...]` for `i in range(3)` unconditionally; grids with fewer
than 3 rows would raise `IndexError` in Python and are outside the model.) -/
def dataStartRow (g : Grid) (bhCol : Nat) : Nat :=
  if dsQualifies g bhCol 0 then 0
  else if dsQualifies g bhCol 1 then 1
  else if dsQualifies g bhCol 2 then 2
  else 3

/-! ## Global aggregates, cumulative data, grand totals (lines 478-536) -/

def lineMonth (ln : LineData) (m : String) : MonthVals :=
  (alookup m ln.monthly_data).getD zeroVals

/-- Global aggregate of one month over all budget lines (lines 478-500):
exact sums of the stored per-line values, each rounded at the end. -/
def globalMonth (lines : List (String × LineData)) (m : String) : MonthVals :=
  ⟨pyRound2 ((lines.map fun l => (lineMonth l.2 m).planned).sum),
   pyRound2 ((lines.map fun l => (lineMonth l.2 m).claims).sum),
   pyRound2 ((lines.map fun l => (lineMonth l.2 m).d365).sum),
   pyRound2 ((lines.map fun l => (lineMonth l.2 m).total_spent).sum),
   pyRound2 ((lines.map fun l => (lineMonth l.2 m).variance).sum)⟩

/-- One month step of the global monthly aggregation: keep the month iff
its global aggregate is nonzero. -/
def gmStep (lines : List (String × LineData)) (acc : List (String × MonthVals))
    (m : String) : List (String × MonthVals) :=
  let gm := globalMonth lines m
  if is_non_zero_month gm then acc ++ [(m, gm)] else acc

/-- `monthly_data` of the output: the nonzero global months, in month-key
order (lines 502-504). -/
def globalMonthlyData (lines : List (String × LineData)) (monthNames : List String) :
    List (String × MonthVals) :=
  monthNames.foldl (gmStep lines) []

structure CumVals where
  cumulative_planned : ℚ
  cumulative_spent : ℚ
  cumulative_variance : ℚ
deriving DecidableEq

/-- One month step of the cumulative series: the exact accumulators grow by
the stored month's values and a rounded entry is appended; months absent
from `monthly` are skipped. -/
def cumStep (monthly : List (String × MonthVals))
    (st : List (String × CumVals) × ℚ × ℚ) (m : String) :
    List (String × CumVals) × ℚ × ℚ :=
  match alookup m monthly with
  | some mv =>
    let cp := st.2.1 + mv.planned
    let cs := st.2.2 + mv.total_spent
    (st.1 ++ [(m, ⟨pyRound2 cp, pyRound2 cs, pyRound2 (cp - cs)⟩)], cp, cs)
  | none => st

/-- `cumulative_data` (lines 509-522): running exact sums over the stored
months, rounded at each stored entry. -/
def globalCumulativeData (monthly : List (String × MonthVals)) (monthNames : List String) :
    List (String × CumVals) :=
  (monthNames.foldl (cumStep monthly)
    (([] : List (String × CumVals)), (0 : ℚ), (0 : ℚ))).1

/-! ## `process_uc_file` (lines 286-556) -/

structure UCOutput where
  monthly_data : List (String × MonthVals)
  cumulative_data : List (String × CumVals)
  budget_lines : List (String × LineData)
  grand_total_planned : ℚ
  grand_total_spent : ℚ
  grand_total_variance : ℚ
deriving DecidableEq

/-- Python's `sorted` on the normalized month keys: ascending lexicographic
order on code points. -/
def sortedMonthNames (mm : MonthMap) : List String :=
  List.insertionSort (fun a b => strLeB a b = true) (mm.map Prod.fst)

/-- `process_uc_file` on a cleaned grid.  The Excel load and
`clean_dataframe` are not modelled: the grid is the cleaned frame.  The
unused `find_total_column` result (line 322) is omitted.  Validation
happens before any output is assembled, so the error paths return no
partial data. -/
def process_uc_file (g : Grid) : Except String UCOutput :=
  let mm := find_month_column_map g
  let monthNames := sortedMonthNames mm
  match find_column_by_header g BUDGET_HEAD_KEYWORDS with
  | none => .error "Could not find Budget Head column in UC file"
  | some bhCol =>
    match find_column_by_header g COST_HEAD_KEYWORDS with
    | none => .error "Could not find Cost Head column in UC file"
    | some chCol =>
      if mm.isEmpty then .error "Could not find any month columns in UC file"
      else
        let vrCol := find_column_by_header g VENDOR_ROLE_KEYWORDS
        let lines := processRows g bhCol vrCol chCol mm monthNames (dataStartRow g bhCol)
        let monthly := globalMonthlyData lines monthNames
        let cum := globalCumulativeData monthly monthNames
        let gp := pyRound2 ((lines.map fun l => l.2.total_planned).sum)
        let gs := pyRound2 ((lines.map fun l => l.2.total_spent).sum)
        .ok
          { monthly_data := monthly
            cumulative_data := cum
            budget_lines := lines
            grand_total_planned := gp
            grand_total_spent := gs
            grand_total_variance := pyRound2 (gp - gs) }

/-- Projection used to state concrete-run facts. -/
def ucOk? : Except String UCOutput → Option UCOutput
  | .ok o => some o
  | .error _ => none

/-! ## Concrete grids used to settle the claims -/

/-- The shape predicate of a non-null `normalize_month` result: a dash
separating an all-digit year of 3 or 4 characters from an all-digit month
of exactly 2 characters. -/
def keyShape (r : String) : Prop :=
  ∃ y m : List Char, r.data = y ++ '-' :: m ∧ y.all isDigitChar = true ∧
    (y.length = 3 ∨ y.length = 4) ∧ m.all isDigitChar = true ∧ m.length = 2

/-- C1's scenario: a header row with two plan headers normalizing to the
same month key, at columns 2 and 3. -/
def gDupHeaders : Grid :=
  ⟨[[.str "Budget Head", .str "Cost Head", .str "Plan Apr-25", .str "Plan April-2025"]]⟩

/-- C4's scenario: a month header matching no role keyword list. -/
def gMonthOnly : Grid := ⟨[[.str "Apr-25"]]⟩

/-- C6's scenario: no cell matches a cost-head keyword. -/
def gNoCostHead : Grid := ⟨[[.str "Budget Head", .str "Plan Apr-25"]]⟩

/-- C8's scenario: a vendor/role cell holding only whitespace. -/
def gWhitespaceVendor : Grid :=
  ⟨[[.str "Budget Head", .str "Vendor", .str "Cost Head", .str "Plan Apr-25"],
    [.str "Infra", .str " ", .str "X", .num 5]]⟩

/-- C5's scenario: a month with zero plan but 500 spent, and a second month
that is entirely zero (no vendor column, so the line key is the bare head). -/
def gSparse : Grid :=
  ⟨[[.str "Budget Head", .str "Cost Head", .str "Plan Apr-25", .str "Claims Apr-25", .str "Plan May-25"],
    [.str "Infra", .str "X", .num 0, .num 500, .num 0]]⟩

/-- C9's scenario: the header sits in row 0, data begins at row 1. -/
def gEarlyData : Grid :=
  ⟨[[.str "Budget Head", .str "Cost Head", .str "Plan Apr-25"],
    [.str "Infra", .str "X", .num 5],
    [.str "Ops", .str "Y", .num 7]]⟩

/-- A small fully regular sheet used as the aggregate witness: two data rows
merging into one budget line over two months, one of which is all-zero. -/
def gAgg : Grid :=
  ⟨[[.str "Budget Head", .str "Vendor", .str "Cost Head", .str "Plan Apr-25", .str "Claims Apr-25", .str "Plan May-25"],
    [.str "Infra", .str "VendorA", .str "Support", .num 100, .num 40, .num 0],
    [.str "Infra", .str "VendorA", .str "Licenses", .num 50, .num 10, .num 0]]⟩

/-- A value that is an integer number of cents.  Every monetary value
stored by the pipeline is a rounded value, i.e. an integer number of cents;
on such values Python's `round(x, 2)` is the identity, which is what makes
the aggregation identities exact. -/
def centsQ (q : ℚ) : Prop := ∃ n : ℤ, q = (n : ℚ) / 100

/-- Sum of the stored per-month planned values of one line. -/
def mdSumP (md : List (String × MonthVals)) : ℚ :=
  (md.map fun p => p.2.planned).sum

/-- Sum of the stored per-month total-spent values of one line. -/
def mdSumS (md : List (String × MonthVals)) : ℚ :=
  (md.map fun p => p.2.total_spent).sum

/-- Invariant of a line's stored `monthly_data`: the stored keys are
distinct members of the month-name list, and the stored planned/spent
values are integer numbers of cents. -/
def MdInv (L : List String) (md : List (String × MonthVals)) : Prop :=
  (md.map Prod.fst).Nodup ∧
  ∀ p ∈ md, p.1 ∈ L ∧ centsQ p.2.planned ∧ centsQ p.2.total_spent

/-- Invariant carried by every budget line through the row loop: totals and
stored values are integer numbers of cents, stored month keys are distinct
members of the month-name list, and the running totals are exactly the sums
of the stored per-month values. -/
def LineInv (L : List String) (ln : LineData) : Prop :=
  centsQ ln.total_planned ∧ centsQ ln.total_spent ∧
  MdInv L ln.monthly_data ∧
  ln.total_planned = mdSumP ln.monthly_data ∧
  ln.total_spent = mdSumS ln.monthly_data

/-- The output of `process_uc_file gSparse`. -/
def outSparse : UCOutput :=
  { monthly_data := [("2025-04", ⟨0, 500, 0, 500, -500⟩)]
    cumulative_data := [("2025-04", ⟨0, 500, -500⟩)]
    budget_lines := [("Infra",
      { budget_head := "Infra"
        cost_heads := ["X"]
        vendor_role_category := none
        total_planned := 0
        total_spent := 500
        total_variance := -500
        monthly_data := [("2025-04", ⟨0, 500, 0, 500, -500⟩)] })]
    grand_total_planned := 0
    grand_total_spent := 500
    grand_total_variance := -500 }

/-- The output of `process_uc_file gAgg`. -/
def outAgg : UCOutput :=
  { monthly_data := [("2025-04", ⟨150, 50, 0, 50, 100⟩)]
    cumulative_data := [("2025-04", ⟨150, 50, 100⟩)]
    budget_lines := [("Infra - VendorA",
      { budget_head := "Infra"
        cost_heads := ["Support", "Licenses"]
        vendor_role_category := some "VendorA"
        total_planned := 150
        total_spent := 50
        total_variance := 100
        monthly_data := [("2025-04", ⟨150, 50, 0, 50, 100⟩)] })]
    grand_total_planned := 150
    grand_total_spent := 50
    grand_total_variance := 100 }

/-! ## Multiples of a cent -/

theorem centsQ_zero : centsQ 0 := ⟨0, by norm_num⟩

theorem centsQ_add {a b : ℚ} (ha : centsQ a) (hb : centsQ b) : centsQ (a + b) := by
  obtain ⟨m, rfl⟩ := ha
  obtain ⟨n, rfl⟩ := hb
  exact ⟨m + n, by push_cast; ring⟩

theorem centsQ_sub {a b : ℚ} (ha : centsQ a) (hb : centsQ b) : centsQ (a - b) := by
  obtain ⟨m, rfl⟩ := ha
  obtain ⟨n, rfl⟩ := hb
  exact ⟨m - n, by push_cast; ring⟩

theorem centsQ_sum {l : List ℚ} (h : ∀ q ∈ l, centsQ q) : centsQ l.sum := by
  induction l with
  | nil => simpa using centsQ_zero
  | cons a t ih =>
    rw [List.sum_cons]
    exact centsQ_add (h a (by simp)) (ih fun q hq => h q (by simp [hq]))

theorem ratFloor_intCast (n : ℤ) : ratFloor (n : ℚ) = n := by
  unfold ratFloor
  rw [Rat.num_intCast, Rat.den_intCast]
  exact Int.fdiv_one n

theorem roundHalfEven_intCast (n : ℤ) : roundHalfEven (n : ℚ) = n := by
  unfold roundHalfEven
  rw [ratFloor_intCast]
  norm_num

/-- `round(x, 2)` is the identity on integer numbers of cents. -/
theorem pyRound2_cents {q : ℚ} (h : centsQ q) : pyRound2 q = q := by
  obtain ⟨n, rfl⟩ := h
  unfold pyRound2
  have h100 : ((n : ℚ) / 100) * 100 = (n : ℚ) := by
    field_simp
  rw [h100, roundHalfEven_intCast]

theorem pyRound2_centsQ (q : ℚ) : centsQ (pyRound2 q) :=
  ⟨roundHalfEven (q * 100), rfl⟩

theorem pyRound2_zero : pyRound2 0 = 0 :=
  pyRound2_cents centsQ_zero

theorem clean_value_cents (cell : Cell) : centsQ (clean_value cell) := by
  unfold clean_value
  match cell with
  | .blank => exact centsQ_zero
  | .num q => exact pyRound2_centsQ q
  | .str s =>
    dsimp only
    cases pyFloat? (s.data.filter (· ≠ ',')) with
    | none => exact centsQ_zero
    | some q => exact pyRound2_centsQ q

theorem rowMonthVals_planned_cents (g : Grid) (i : Nat) (e : MonthEntry) :
    centsQ (rowMonthVals g i e).planned := by
  unfold rowMonthVals
  dsimp only
  cases e.plan with
  | none => exact centsQ_zero
  | some c => exact clean_value_cents _

theorem rowMonthVals_spent_cents (g : Grid) (i : Nat) (e : MonthEntry) :
    centsQ (rowMonthVals g i e).total_spent := by
  unfold rowMonthVals
  exact pyRound2_centsQ _

/-! ## Association-list helper lemmas -/

theorem alookup_append {β : Type} (k : String) (l l' : List (String × β)) :
    alookup k (l ++ l') =
      match alookup k l with
      | some v => some v
      | none => alookup k l' := by
  induction l with
  | nil => simp [alookup]
  | cons p t ih =>
    obtain ⟨k', v⟩ := p
    by_cases hk : k' = k <;> simp [alookup, hk, ih]

theorem alookup_eq_none_of_not_mem_keys {β : Type} {k : String} {l : List (String × β)}
    (h : k ∉ l.map Prod.fst) : alookup k l = none := by
  induction l with
  | nil => rfl
  | cons p t ih =>
    obtain ⟨k', v⟩ := p
    simp only [List.map_cons, List.mem_cons] at h
    push_neg at h
    simp only [alookup]
    rw [if_neg (fun hh => h.1 hh.symm), ih h.2]

/-- Summing `f` applied pointwise, where `f` differs from `g0` only at a key
`k ∈ L` with `g0 k = 0`, adds exactly `v`. -/
theorem sum_map_if_single {L : List String} {k : String} (v : ℚ) (g0 : String → ℚ)
    (hnd : L.Nodup) (hk : k ∈ L) (h0 : g0 k = 0) :
    (L.map fun m => if k = m then v else g0 m).sum = v + (L.map g0).sum := by
  induction L with
  | nil => cases hk
  | cons a t ih =>
    by_cases hka : k = a
    · subst hka
      have hnotin : k ∉ t := (List.nodup_cons.mp hnd).1
      have hmap : (t.map fun m => if k = m then v else g0 m) = t.map g0 := by
        apply List.map_congr_left
        intro m hm
        have hne : k ≠ m := fun hEq => hnotin (hEq ▸ hm)
        simp [hne]
      rw [List.map_cons, List.sum_cons, hmap, List.map_cons, List.sum_cons, if_pos rfl, h0]
      ring
    · have hmem : k ∈ t := by
        rcases List.mem_cons.mp hk with h | h
        · exact absurd h hka
        · exact h
      have hrec := ih (List.nodup_cons.mp hnd).2 hmem
      rw [List.map_cons, List.sum_cons, if_neg hka, List.map_cons, List.sum_cons, hrec]
      ring

theorem foldl_add_map {α : Type} (f : α → ℚ) (l : List α) (a : ℚ) :
    l.foldl (fun acc p => acc + f p) a = a + (l.map f).sum := by
  induction l generalizing a with
  | nil => simp
  | cons x t ih => simp [ih, add_assoc]

theorem list_sum_map_add {α : Type} (f g0 : α → ℚ) (l : List α) :
    (l.map fun x => f x + g0 x).sum = (l.map f).sum + (l.map g0).sum := by
  induction l with
  | nil => simp
  | cons x t ih => simp [ih]; ring

/-- Exchange of a finite double sum over lists. -/
theorem list_sum_swap {α β : Type} (L : List α) (K : List β) (f : α → β → ℚ) :
    (L.map fun m => (K.map fun l => f m l).sum).sum
      = (K.map fun l => (L.map fun m => f m l).sum).sum := by
  induction L with
  | nil =>
    simp [List.sum_eq_zero]
  | cons a t ih =>
    simp only [List.map_cons, List.sum_cons, ih, ← list_sum_map_add]

/-! ## Shape of the tokens captured by the date regexes -/

theorem all_takeWhile (p : Char → Bool) (l : List Char) : (l.takeWhile p).all p = true := by
  induction l with
  | nil => rfl
  | cons c t ih =>
    by_cases h : p c <;> simp [List.takeWhile, h, ih]

theorem all_take_of_all {p : Char → Bool} {l : List Char} (h : l.all p = true) (n : Nat) :
    (l.take n).all p = true := by
  rw [List.all_eq_true] at h ⊢
  exact fun x hx => h x (List.take_subset n l hx)

theorem isoMatch_spec {cs y m : List Char} (h : isoMatch cs = some (y, m)) :
    y.all isDigitChar = true ∧ y.length = 4 ∧ m.all isDigitChar = true ∧
      1 ≤ m.length ∧ m.length ≤ 2 := by
  simp only [isoMatch] at h
  split at h
  case isFalse => exact Option.noConfusion h
  case isTrue h4 =>
    split at h
    case isTrue => exact Option.noConfusion h
    case isFalse =>
      split at h
      case isTrue => exact Option.noConfusion h
      case isFalse hne =>
        simp only [Option.some.injEq, Prod.mk.injEq] at h
        obtain ⟨hy, hm⟩ := h
        subst hy hm
        refine ⟨all_takeWhile _ _, h4, all_take_of_all (all_takeWhile _ _) 2, ?_, ?_⟩ <;>
          · rw [List.length_take]
            have : ((cs.dropWhile isDigitChar).dropWhile isSepChar).takeWhile isDigitChar ≠ [] := by
              simpa [List.isEmpty_iff] using hne
            have := List.length_pos.mpr this
            omega

theorem monthYearSearch_spec :
    ∀ {cs mt yt : List Char}, monthYearSearch cs = some (mt, yt) →
      yt.all isDigitChar = true ∧ 2 ≤ yt.length ∧ yt.length ≤ 4 := by
  intro cs
  induction cs with
  | nil => intro mt yt h; exact Option.noConfusion h
  | cons c t ih =>
    intro mt yt h
    simp only [monthYearSearch] at h
    split at h
    case isTrue =>
      split at h
      case isTrue hlen =>
        simp only [Option.some.injEq, Prod.mk.injEq] at h
        obtain ⟨-, hyt⟩ := h
        subst hyt
        refine ⟨all_take_of_all (all_takeWhile _ _) 4, ?_, ?_⟩ <;>
          · rw [List.length_take]
            omega
      case isFalse => exact ih h
    case isFalse => exact ih h

theorem numericSearch_spec :
    ∀ {cs mg yg : List Char}, numericSearch cs = some (mg, yg) →
      mg.all isDigitChar = true ∧ 1 ≤ mg.length ∧ mg.length ≤ 2 ∧
        yg.all isDigitChar = true ∧ 2 ≤ yg.length ∧ yg.length ≤ 4 := by
  intro cs
  induction cs with
  | nil => intro mg yg h; exact Option.noConfusion h
  | cons c t ih =>
    intro mg yg h
    simp only [numericSearch] at h
    split at h
    case isTrue hdig =>
      split at h
      case isTrue hguard =>
        split at h
        case isTrue hylen =>
          simp only [Option.some.injEq, Prod.mk.injEq] at h
          obtain ⟨hmg, hyg⟩ := h
          subst hmg hyg
          simp only [Bool.and_eq_true, decide_eq_true_eq] at hguard
          refine ⟨?_, by simp, hguard.1, all_take_of_all (all_takeWhile _ _) 4, ?_, ?_⟩
          · simp [List.all_cons, hdig, all_takeWhile]
          · rw [List.length_take]; omega
          · rw [List.length_take]; omega
        case isFalse => exact ih h
      case isFalse => exact ih h
    case isFalse => exact ih h

theorem lookupAbbrev_spec {mt : List Char} {m : String} (h : lookupAbbrev mt = some m) :
    m.data.all isDigitChar = true ∧ m.length = 2 := by
  simp only [lookupAbbrev, Option.map_eq_some'] at h
  obtain ⟨p, hfind, hm⟩ := h
  subst hm
  have hmem := List.mem_of_find?_eq_some hfind
  have hall : ∀ p ∈ MONTH_ABBREVIATIONS, p.2.data.all isDigitChar = true ∧ p.2.length = 2 := by
    decide
  exact hall p hmem

theorem normYear_spec {yt : List Char} (hall : yt.all isDigitChar = true)
    (h2 : 2 ≤ yt.length) (h4 : yt.length ≤ 4) :
    (normYear yt).all isDigitChar = true ∧
      ((normYear yt).length = 3 ∨ (normYear yt).length = 4) := by
  unfold normYear
  by_cases h : yt.length = 2
  · rw [if_pos h]
    refine ⟨?_, by simp [h]⟩
    simp only [List.all_cons, hall, Bool.and_true]
    decide
  · rw [if_neg h]
    exact ⟨hall, by omega⟩

theorem zfill2_spec {cs : List Char} (hall : cs.all isDigitChar = true)
    (h1 : 1 ≤ cs.length) (h2 : cs.length ≤ 2) :
    (zfill2 cs).all isDigitChar = true ∧ (zfill2 cs).length = 2 := by
  unfold zfill2
  by_cases h : cs.length ≥ 2
  · rw [if_pos h]
    exact ⟨hall, by omega⟩
  · rw [if_neg h]
    refine ⟨?_, by simp; omega⟩
    simp only [List.all_cons, hall, Bool.and_true]
    decide

theorem numericFallback_shape {ds : List Char} {r : String}
    (h : numericFallback ds = some r) : keyShape r := by
  unfold numericFallback at h
  split at h
  case h_2 => exact Option.noConfusion h
  case h_1 mg yg heq =>
    simp only [Option.some.injEq] at h
    subst h
    obtain ⟨hmall, hm1, hm2, hyall, hy2, hy4⟩ := numericSearch_spec heq
    obtain ⟨hyall', hylen'⟩ := normYear_spec hyall hy2 hy4
    obtain ⟨hmall', hmlen'⟩ := zfill2_spec hmall hm1 hm2
    exact ⟨normYear yg, zfill2 mg, rfl, hyall', hylen', hmall', hmlen'⟩

/-! ## Claim C7: concrete `normalize_month` examples -/

/-- C7: `normalize_month` maps "Apr-25", "April 2025", "4/25", "2025-04-01",
"apr 25" and "APR-25" to "2025-04", and maps "Mar" (no year token) and ""
to `None`. -/
theorem c7_normalize_month_examples :
    normalize_month "Apr-25" = some "2025-04" ∧
    normalize_month "April 2025" = some "2025-04" ∧
    normalize_month "4/25" = some "2025-04" ∧
    normalize_month "2025-04-01" = some "2025-04" ∧
    normalize_month "apr 25" = some "2025-04" ∧
    normalize_month "APR-25" = some "2025-04" ∧
    normalize_month "Mar" = none ∧
    normalize_month "" = none := by
  decide

/-! ## Claim C10: no range validation of the month component -/

/-- C10: `normalize_month` performs no range validation on the month
component: "13/25" yields "2025-13" and "2025-99" yields "2025-99", although
neither "13" nor "99" is a calendar-month number (the table of valid month
numbers is exactly the codomain of `MONTH_ABBREVIATIONS`). -/
theorem c10_normalize_month_no_range_validation :
    normalize_month "13/25" = some "2025-13" ∧
    normalize_month "2025-99" = some "2025-99" ∧
    ((MONTH_ABBREVIATIONS.map Prod.snd).all fun v => v ≠ "13" && v ≠ "99") = true := by
  decide

/-! ## Claim C3: shape of `normalize_month` results -/

/-- C3 counterexample: the claim says every non-null result has exactly 7
characters matching a 4-digit year.  On input "apr 202" the year token has
three digits, is not zero-padded, and the result "202-04" has 6 characters. -/
theorem c3_counterexample_three_digit_year :
    normalize_month "apr 202" = some "202-04" ∧ ("202-04" : String).length = 6 := by
  decide

/-- C3 (amended): when non-null, the result of `normalize_month` matches
`\d{3,4}-\d{2}` - an all-digit year of 3 or 4 characters (3 exactly when the
input's year token has 3 digits), a dash, and a zero-padded 2-digit month -
and for empty or whitespace-only input the result is `None`; failures are
silent (`None`), never exceptions, since the function is total. -/
theorem c3_normalize_month_shape :
    (∀ s r : String, normalize_month s = some r → keyShape r) ∧
    (∀ s : String, (pyStripChars s.data).isEmpty = true → normalize_month s = none) := by
  constructor
  · intro s r h
    simp only [normalize_month] at h
    split at h
    case isTrue => exact Option.noConfusion h
    case isFalse =>
      split at h
      case h_1 y m heq =>
        simp only [Option.some.injEq] at h
        subst h
        obtain ⟨hyall, hylen, hmall, hm1, hm2⟩ := isoMatch_spec heq
        obtain ⟨hmall2, hmlen2⟩ := zfill2_spec hmall hm1 hm2
        exact ⟨y, zfill2 m, rfl, hyall, Or.inr hylen, hmall2, hmlen2⟩
      case h_2 hiso =>
        split at h
        case h_1 mt yt heq =>
          split at h
          case h_1 mAb habbrev =>
            simp only [Option.some.injEq] at h
            subst h
            obtain ⟨hyall, hy2, hy4⟩ := monthYearSearch_spec heq
            obtain ⟨hyall2, hylen2⟩ := normYear_spec hyall hy2 hy4
            obtain ⟨hmall, hmlen⟩ := lookupAbbrev_spec habbrev
            exact ⟨normYear yt, mAb.data, rfl, hyall2, hylen2, hmall, hmlen⟩
          case h_2 => exact numericFallback_shape h
        case h_2 => exact numericFallback_shape h
  · intro s hs
    simp [normalize_month, hs]

/-- Witness for `c3_normalize_month_shape` at concrete inputs. -/
theorem c3_normalize_month_shape_witness :
    keyShape "2025-04" ∧ normalize_month "   " = none :=
  ⟨c3_normalize_month_shape.1 "Apr-25" "2025-04" (by decide),
   c3_normalize_month_shape.2 "   " (by decide)⟩

/-! ## Claims C1 and C4: the month-column mapper -/

theorem setRole_raw (e : MonthEntry) (role : Option Role) (c : Nat) :
    (setRole e role c).raw_headers = e.raw_headers := by
  cases role with
  | none => rfl
  | some r => cases r <;> rfl

theorem mmInsert_raw_nonempty {mm : MonthMap}
    (h : ∀ p ∈ mm, p.2.raw_headers ≠ []) (k raw : String) (role : Option Role) (c : Nat) :
    ∀ p ∈ mmInsert mm k raw role c, p.2.raw_headers ≠ [] := by
  induction mm with
  | nil =>
    intro p hp
    simp only [mmInsert, List.mem_singleton] at hp
    subst hp
    simp [setRole_raw]
  | cons q t ih =>
    obtain ⟨k', e⟩ := q
    intro p hp
    by_cases hk : k' = k
    · simp only [mmInsert, if_pos hk] at hp
      rcases List.mem_cons.mp hp with rfl | hmem
      · simp [setRole_raw]
      · exact h p (List.mem_cons_of_mem _ hmem)
    · simp only [mmInsert, if_neg hk] at hp
      rcases List.mem_cons.mp hp with rfl | hmem
      · exact h _ (List.mem_cons_self _ _)
      · exact ih (fun q hq => h q (List.mem_cons_of_mem _ hq)) p hmem

theorem scanFold_raw_nonempty (g : Grid) (r : Nat) (cols : List Nat) (mm : MonthMap)
    (h : ∀ p ∈ mm, p.2.raw_headers ≠ []) :
    ∀ p ∈ cols.foldl (scanStep g r) mm, p.2.raw_headers ≠ [] := by
  induction cols generalizing mm with
  | nil => exact h
  | cons c cs ih =>
    refine ih (scanStep g r mm c) ?_
    unfold scanStep
    cases hk : headerKey (cellAt g r c) with
    | none => exact h
    | some v =>
      obtain ⟨k, raw, role⟩ := v
      exact mmInsert_raw_nonempty h k raw role c

theorem scanHeaderRow_raw_nonempty (g : Grid) (r : Nat) :
    ∀ p ∈ scanHeaderRow g r, p.2.raw_headers ≠ [] :=
  scanFold_raw_nonempty g r _ [] (by simp)

theorem find_month_column_map_raw_nonempty (g : Grid) :
    ∀ p ∈ find_month_column_map g, p.2.raw_headers ≠ [] := by
  unfold find_month_column_map
  generalize HEADER_SEARCH_ROWS = rows
  have base : ∀ p ∈ ([] : MonthMap), p.2.raw_headers ≠ [] := by simp
  generalize hacc : ([] : MonthMap) = acc at base
  clear hacc
  induction rows generalizing acc with
  | nil => exact base
  | cons r rs ih =>
    refine ih (fmcmStep g acc r) ?_
    unfold fmcmStep
    by_cases he : acc.isEmpty
    · rw [if_pos he]
      by_cases hr : r < nRows g
      · rw [if_pos hr]
        exact scanHeaderRow_raw_nonempty g r
      · rw [if_neg hr]
        exact base
    · rw [if_neg he]
      exact base

/-- C1 counterexample: with header cells "Plan Apr-25" (column 2) and
"Plan April-2025" (column 3) merging into the single MonthKey "2025-04",
the recorded plan column is 3 - the LAST-found column - not the first-found
column 2 the claim requires: the role write at line 227 of process_uc.py is
an unconditional dict assignment. -/
theorem c1_counterexample_duplicate_plan_header :
    find_month_column_map gDupHeaders =
      [("2025-04", ⟨["Plan Apr-25", "Plan April-2025"], some 3, none, none⟩)] := by
  decide

/-- C1 (amended): when two header cells normalize to the same MonthKey and
match the same role keyword list, the later write overwrites the earlier
one, so the LAST-found column in left-to-right scan order is recorded (the
duplicate raw headers are all retained); in the claim's concrete scenario
the mapper yields exactly one MonthKey "2025-04" whose plan role is bound
to the second of the two columns. -/
theorem c1_duplicate_role_last_wins :
    (∀ (mm : MonthMap) (k raw : String) (c : Nat),
        ∃ e : MonthEntry, alookup k (mmInsert mm k raw (some .plan) c) = some e ∧
          e.plan = some c) ∧
    find_month_column_map gDupHeaders =
      [("2025-04", ⟨["Plan Apr-25", "Plan April-2025"], some 3, none, none⟩)] := by
  refine ⟨?_, by decide⟩
  intro mm k raw c
  induction mm with
  | nil =>
    refine ⟨setRole ⟨[raw], none, none, none⟩ (some .plan) c, ?_, rfl⟩
    simp [mmInsert, alookup]
  | cons q t ih =>
    obtain ⟨k', e⟩ := q
    by_cases hk : k' = k
    · subst hk
      refine ⟨setRole { e with raw_headers := e.raw_headers ++ [raw] } (some .plan) c, ?_, rfl⟩
      simp [mmInsert, alookup]
    · obtain ⟨e', he', hp⟩ := ih
      exact ⟨e', by simp [mmInsert, alookup, hk, he'], hp⟩

/-- Witness for `c1_duplicate_role_last_wins` at a concrete map. -/
theorem c1_duplicate_role_last_wins_witness :
    ∃ e : MonthEntry,
      alookup "2025-04" (mmInsert [("2025-04", ⟨["Plan Apr-25"], some 2, none, none⟩)]
        "2025-04" "Plan April-2025" (some .plan) 3) = some e ∧ e.plan = some 3 :=
  c1_duplicate_role_last_wins.1 [("2025-04", ⟨["Plan Apr-25"], some 2, none, none⟩)]
    "2025-04" "Plan April-2025" 3

/-- C4 counterexample: the header cell "Apr-25" matches the month pattern
and normalizes to "2025-04" but matches none of the three role keyword
lists, so the MonthKey is registered with zero role assignments (only its
raw header), contradicting the claimed invariant. -/
theorem c4_counterexample_roleless_month_key :
    find_month_column_map gMonthOnly =
      [("2025-04", ⟨["Apr-25"], none, none, none⟩)] := by
  decide

/-- C4 (amended): a MonthKey is registered for every header cell whose text
matches a month pattern and normalizes, even when no role keyword matches;
the invariant that actually holds is that every registered key carries at
least one raw header, while all three role columns may be absent. -/
theorem c4_registered_keys_have_raw_headers :
    (∀ (g : Grid) (k : String) (e : MonthEntry),
        (k, e) ∈ find_month_column_map g → e.raw_headers ≠ []) ∧
    find_month_column_map gMonthOnly =
      [("2025-04", ⟨["Apr-25"], none, none, none⟩)] := by
  refine ⟨?_, by decide⟩
  intro g k e hmem
  exact find_month_column_map_raw_nonempty g (k, e) hmem

/-- Witness for `c4_registered_keys_have_raw_headers` at a concrete grid. -/
theorem c4_registered_keys_have_raw_headers_witness :
    (["Apr-25"] : List String) ≠ [] :=
  c4_registered_keys_have_raw_headers.1 gMonthOnly "2025-04"
    ⟨["Apr-25"], none, none, none⟩ (by decide)

/-! ## Claim C6: fatal validation errors produce no partial output -/

/-- C6: if the budget-head column, the cost-head column, or every month
column is absent from the header search window, `process_uc_file` raises
immediately; the validation happens before any output is assembled, so the
fatal result is a bare error carrying no partial data - zero budget lines,
no monthly, cumulative or grand-total data. -/
theorem c6_fatal_on_missing_columns (g : Grid)
    (h : find_column_by_header g BUDGET_HEAD_KEYWORDS = none ∨
         find_column_by_header g COST_HEAD_KEYWORDS = none ∨
         find_month_column_map g = []) :
    ∃ msg : String, process_uc_file g = .error msg := by
  simp only [process_uc_file]
  rcases h with h | h | h
  · rw [h]
    exact ⟨_, rfl⟩
  · cases hb : find_column_by_header g BUDGET_HEAD_KEYWORDS with
    | none => exact ⟨_, rfl⟩
    | some bhCol =>
      rw [h]
      exact ⟨_, rfl⟩
  · cases hb : find_column_by_header g BUDGET_HEAD_KEYWORDS with
    | none => exact ⟨_, rfl⟩
    | some bhCol =>
      cases hc : find_column_by_header g COST_HEAD_KEYWORDS with
      | none => exact ⟨_, rfl⟩
      | some chCol =>
        rw [h]
        exact ⟨_, rfl⟩

/-- Witness for `c6_fatal_on_missing_columns`: a grid whose header window
contains no cost-head keyword. -/
theorem c6_fatal_on_missing_columns_witness :
    ∃ msg : String, process_uc_file gNoCostHead = .error msg :=
  c6_fatal_on_missing_columns gNoCostHead (Or.inr (Or.inl (by decide)))

/-! ## Claim C9: data-start detection -/

/-- C9 counterexample: the claim says the probed rows all lie after the
header search window; in fact the source probes `range(3)`, i.e. rows 0-2,
which lie inside the window `HEADER_SEARCH_ROWS = [0..5]`: on `gEarlyData`
the budget-head column is 0 and the detected start row is 1, a member of
the header search window (and not the fallback 3). -/
theorem c9_counterexample_probe_rows_inside_window :
    find_column_by_header gEarlyData BUDGET_HEAD_KEYWORDS = some 0 ∧
    dataStartRow gEarlyData 0 = 1 ∧
    HEADER_SEARCH_ROWS.contains 1 = true := by
  decide

/-- C9 (amended): data-start detection probes rows 0, 1 and 2 - overlapping
the header search window, not following it: `data_start_row` is the first
probed row whose budget-head cell is non-blank and not header-like (no
"budget"/"head" substring, not a row-number marker "s.no"/"sr.no"/"#");
if none qualifies the fixed fallback is row 3.  (Grids with fewer than 3
rows would raise `IndexError` in the source and are outside the model,
hence the hypothesis.) -/
theorem c9_data_start_characterization (g : Grid) (c : Nat) (h3 : 3 ≤ nRows g) :
    (dataStartRow g c < 3 ∧ dsQualifies g c (dataStartRow g c) = true ∧
      ∀ j < dataStartRow g c, dsQualifies g c j = false) ∨
    (dataStartRow g c = 3 ∧ ∀ j < 3, dsQualifies g c j = false) := by
  unfold dataStartRow
  by_cases h0 : dsQualifies g c 0 = true
  · rw [if_pos h0]
    exact Or.inl ⟨by norm_num, h0, fun j hj => absurd hj (by omega)⟩
  · have h0' : dsQualifies g c 0 = false := by simpa using h0
    rw [if_neg h0]
    by_cases h1 : dsQualifies g c 1 = true
    · rw [if_pos h1]
      refine Or.inl ⟨by norm_num, h1, ?_⟩
      intro j hj
      have : j = 0 := by omega
      subst this
      exact h0'
    · have h1' : dsQualifies g c 1 = false := by simpa using h1
      rw [if_neg h1]
      by_cases h2 : dsQualifies g c 2 = true
      · rw [if_pos h2]
        refine Or.inl ⟨by norm_num, h2, ?_⟩
        intro j hj
        match j, hj with
        | 0, _ => exact h0'
        | 1, _ => exact h1'
      · have h2' : dsQualifies g c 2 = false := by simpa using h2
        rw [if_neg h2]
        refine Or.inr ⟨rfl, ?_⟩
        intro j hj
        match j, hj with
        | 0, _ => exact h0'
        | 1, _ => exact h1'
        | 2, _ => exact h2'

/-- Witness for `c9_data_start_characterization` at a concrete grid. -/
theorem c9_data_start_characterization_witness :
    (dataStartRow gEarlyData 0 < 3 ∧ dsQualifies gEarlyData 0 (dataStartRow gEarlyData 0) = true ∧
      ∀ j < dataStartRow gEarlyData 0, dsQualifies gEarlyData 0 j = false) ∨
    (dataStartRow gEarlyData 0 = 3 ∧ ∀ j < 3, dsQualifies gEarlyData 0 j = false) :=
  c9_data_start_characterization gEarlyData 0 (by decide)

/-! ## Claim C8: the budget-line composite key -/

/-- C8 counterexample: the claim says a whitespace-only vendor/role cell
falls back to the budget head alone; the source checks only `pd.notna`, so
the whitespace cell of `gWhitespaceVendor` produces the composite key
"Infra - " (empty trimmed vendor part), not "Infra". -/
theorem c8_counterexample_whitespace_vendor :
    (ucOk? (process_uc_file gWhitespaceVendor)).map (fun o => o.budget_lines.map Prod.fst)
      = some ["Infra - "] := by
  with_unfolding_all decide

/-- C8 (amended): the key is the composite `"{budget_head} - {vendor_role}"`
exactly when the vendor/role column exists and the row's vendor cell is
non-null (`pd.notna`) - including when it is blank or whitespace-only after
trimming; the budget head alone is used only when the column is missing or
the cell is NaN. -/
theorem c8_row_key_nonnull_not_nonblank :
    (∀ (bh vr : Cell) (hasVr : Bool), pdIsna bh = false →
      ((hasVr = true ∧ pdIsna vr = false) →
        rowKey bh vr hasVr = stripStr (pyStr bh) ++ " - " ++ stripStr (pyStr vr)) ∧
      (¬(hasVr = true ∧ pdIsna vr = false) → rowKey bh vr hasVr = stripStr (pyStr bh))) ∧
    (ucOk? (process_uc_file gWhitespaceVendor)).map (fun o => o.budget_lines.map Prod.fst)
      = some ["Infra - "] := by
  refine ⟨?_, by with_unfolding_all decide⟩
  intro bh vr hasVr hbh
  constructor
  · rintro ⟨h1, h2⟩
    simp [rowKey, hbh, h1, h2]
  · intro hneg
    have hcond : (!pdIsna bh && hasVr && !pdIsna vr) = false := by
      cases hv : hasVr
      · simp
      · cases hna : pdIsna vr
        · exact absurd ⟨hv, hna⟩ hneg
        · simp
    unfold rowKey
    rw [hcond]
    simp

/-- Witness for `c8_row_key_nonnull_not_nonblank` at concrete cells. -/
theorem c8_row_key_nonnull_not_nonblank_witness :
    rowKey (.str "Infra") (.str " ") true
        = stripStr (pyStr (.str "Infra")) ++ " - " ++ stripStr (pyStr (.str " ")) ∧
    rowKey (.str "Infra") .blank true = stripStr (pyStr (.str "Infra")) :=
  ⟨(c8_row_key_nonnull_not_nonblank.1 (.str "Infra") (.str " ") true (by decide)).1
      ⟨rfl, by decide⟩,
   (c8_row_key_nonnull_not_nonblank.1 (.str "Infra") .blank true (by decide)).2
      (by decide)⟩

/-! ## Claim C5: sparse storage -/

/-- Generic left-fold invariant preservation. -/
theorem foldl_invariant {α β : Type} (P : β → Prop) (step : β → α → β) (l : List α) (b : β)
    (hb : P b) (hstep : ∀ b' a, a ∈ l → P b' → P (step b' a)) : P (l.foldl step b) := by
  induction l generalizing b with
  | nil => exact hb
  | cons x xs ih =>
    exact ih (step b x) (hstep b x (by simp) hb)
      (fun b' a ha hp => hstep b' a (by simp [ha]) hp)

theorem is_non_zero_month_eq (mv : MonthVals) :
    is_non_zero_month mv = true ↔ (mv.planned ≠ 0 ∨ mv.total_spent ≠ 0) := by
  simp [is_non_zero_month, SPARSE_STORAGE_ENABLED]

theorem is_non_zero_month_false (mv : MonthVals) (hp : mv.planned = 0)
    (hs : mv.total_spent = 0) : is_non_zero_month mv = false := by
  rw [← Bool.not_eq_true, is_non_zero_month_eq]
  push_neg
  exact ⟨hp, hs⟩

theorem mdAccum_lookup_other {md : List (String × MonthVals)} {k m : String} (v : MonthVals)
    (hk : k ≠ m) : alookup m (mdAccum md k v) = alookup m md := by
  induction md with
  | nil => simp [mdAccum, alookup, hk]
  | cons p t ih =>
    obtain ⟨k', v'⟩ := p
    by_cases hkk : k' = k
    · subst hkk
      simp only [mdAccum, if_pos rfl]
      simp [alookup, hk]
    · simp only [mdAccum, if_neg hkk]
      by_cases hm : k' = m
      · simp [alookup, hm]
      · simp [alookup, hm, ih]

/-- The per-row guard: when a row's contribution to month `m` has zero
planned and zero spent, the line's entry for `m` is neither created nor
accumulated (lines 435-452 of the source). -/
theorem lineAfterRow_lookup_unchanged (ln : LineData) (contribs : List (String × MonthVals))
    (m : String)
    (h : ∀ p ∈ contribs, p.1 = m → p.2.planned = 0 ∧ p.2.total_spent = 0) :
    alookup m (lineAfterRow ln contribs).monthly_data = alookup m ln.monthly_data := by
  show alookup m (mdFold ln.monthly_data contribs) = alookup m ln.monthly_data
  unfold mdFold
  generalize ln.monthly_data = md
  induction contribs generalizing md with
  | nil => rfl
  | cons p ps ih =>
    rw [List.foldl_cons]
    rw [ih (fun q hq hqm => h q (by simp [hq]) hqm)]
    by_cases hnz : is_non_zero_month p.2 = true
    · rw [if_pos hnz]
      by_cases hpm : p.1 = m
      · obtain ⟨hp0, hs0⟩ := h p (by simp) hpm
        rw [is_non_zero_month_false p.2 hp0 hs0] at hnz
        exact Bool.noConfusion hnz
      · exact mdAccum_lookup_other p.2 hpm
    · rw [if_neg hnz]

theorem addCostHead_monthly_data (ln : LineData) (chv : Option String) :
    (addCostHead ln chv).monthly_data = ln.monthly_data := by
  cases chv with
  | none => rfl
  | some s =>
    simp only [addCostHead]
    split
    · rfl
    · split <;> rfl

/-- Invariant preservation by `linesApply`. -/
theorem linesApply_pres (P : LineData → Prop) (lines : List (String × LineData))
    (k : String) (init : LineData) (f : LineData → LineData)
    (hlines : ∀ p ∈ lines, P p.2) (hinit : P init) (hstep : ∀ ln, P ln → P (f ln)) :
    ∀ p ∈ linesApply lines k init f, P p.2 := by
  induction lines with
  | nil =>
    intro p hp
    simp only [linesApply, List.mem_singleton] at hp
    subst hp
    exact hstep init hinit
  | cons q t ih =>
    obtain ⟨k', v⟩ := q
    intro p hp
    by_cases hk : k' = k
    · simp only [linesApply, if_pos hk] at hp
      rcases List.mem_cons.mp hp with rfl | hmem
      · exact hstep v (hlines _ (List.mem_cons_self _ _))
      · exact hlines p (List.mem_cons_of_mem _ hmem)
    · simp only [linesApply, if_neg hk] at hp
      rcases List.mem_cons.mp hp with rfl | hmem
      · exact hlines _ (List.mem_cons_self _ _)
      · exact ih (fun q hq => hlines q (List.mem_cons_of_mem _ hq)) p hmem

/-- A data row whose contribution to month `m` is zero does not introduce
`m` into any line. -/
theorem processRow_lookup_none {g : Grid} {bhCol : Nat} {vrCol : Option Nat} {chCol : Nat}
    {mm : MonthMap} {monthNames : List String} {lines : List (String × LineData)} {i : Nat}
    {m : String}
    (hinv : ∀ p ∈ lines, alookup m p.2.monthly_data = none)
    (hz : (rowMonthVals g i (mmGet mm m)).planned = 0 ∧
          (rowMonthVals g i (mmGet mm m)).total_spent = 0) :
    ∀ p ∈ processRow g bhCol vrCol chCol mm monthNames lines i,
      alookup m p.2.monthly_data = none := by
  simp only [processRow]
  by_cases h1 : (pdIsna (cellAt g i bhCol)
      || (stripStr (pyStr (cellAt g i bhCol))).data.isEmpty) = true
  · rw [if_pos h1]
    exact hinv
  · rw [if_neg h1]
    by_cases h2 : (strContains (lowerStr (pyStr (cellAt g i bhCol))) "total"
        || strContains (lowerStr (pyStr (cellAt g i bhCol))) "subtotal"
        || strContains (lowerStr (pyStr (cellAt g i bhCol))) "grand") = true
    · rw [if_pos h2]
      exact hinv
    · rw [if_neg h2]
      refine linesApply_pres (fun ln => alookup m ln.monthly_data = none)
        lines _ _ _ hinv rfl ?_
      intro ln hln
      rw [addCostHead_monthly_data, lineAfterRow_lookup_unchanged _ _ _ ?_, hln]
      intro p hp hpm
      obtain ⟨m', hm', rfl⟩ := List.mem_map.mp hp
      dsimp only at hpm ⊢
      subst hpm
      exact hz

theorem globalMonth_zero_of_none {lines : List (String × LineData)} {m : String}
    (h : ∀ p ∈ lines, alookup m p.2.monthly_data = none) :
    globalMonth lines m = zeroVals := by
  have key : ∀ p ∈ lines, lineMonth p.2 m = zeroVals := by
    intro p hp
    unfold lineMonth
    rw [h p hp]
    rfl
  have h1 : (lines.map fun l => (lineMonth l.2 m).planned).sum = 0 := by
    apply List.sum_eq_zero
    intro x hx
    obtain ⟨l, hl, hlx⟩ := List.mem_map.mp hx
    rw [← hlx, key l hl]
    rfl
  have h2 : (lines.map fun l => (lineMonth l.2 m).claims).sum = 0 := by
    apply List.sum_eq_zero
    intro x hx
    obtain ⟨l, hl, hlx⟩ := List.mem_map.mp hx
    rw [← hlx, key l hl]
    rfl
  have h3 : (lines.map fun l => (lineMonth l.2 m).d365).sum = 0 := by
    apply List.sum_eq_zero
    intro x hx
    obtain ⟨l, hl, hlx⟩ := List.mem_map.mp hx
    rw [← hlx, key l hl]
    rfl
  have h4 : (lines.map fun l => (lineMonth l.2 m).total_spent).sum = 0 := by
    apply List.sum_eq_zero
    intro x hx
    obtain ⟨l, hl, hlx⟩ := List.mem_map.mp hx
    rw [← hlx, key l hl]
    rfl
  have h5 : (lines.map fun l => (lineMonth l.2 m).variance).sum = 0 := by
    apply List.sum_eq_zero
    intro x hx
    obtain ⟨l, hl, hlx⟩ := List.mem_map.mp hx
    rw [← hlx, key l hl]
    rfl
  unfold globalMonth
  rw [h1, h2, h3, h4, h5, pyRound2_zero]
  rfl

theorem globalMonthlyData_lookup_none {lines : List (String × LineData)}
    {L : List String} {m : String}
    (hzm : is_non_zero_month (globalMonth lines m) = false) :
    alookup m (globalMonthlyData lines L) = none := by
  unfold globalMonthlyData
  apply foldl_invariant (fun acc => alookup m acc = none) (gmStep lines)
  · rfl
  · intro acc m' hm' hacc
    unfold gmStep
    dsimp only
    by_cases hnz : is_non_zero_month (globalMonth lines m') = true
    · rw [if_pos hnz, alookup_append, hacc]
      by_cases hmm' : m' = m
      · subst hmm'
        rw [hnz] at hzm
        exact Bool.noConfusion hzm
      · simp [alookup, hmm']
    · rw [if_neg hnz]
      exact hacc

/-- Decomposition of a successful `process_uc_file` run into its stages. -/
theorem process_ok {g : Grid} {out : UCOutput} (h : process_uc_file g = .ok out) :
    ∃ bhCol chCol : Nat,
      find_column_by_header g BUDGET_HEAD_KEYWORDS = some bhCol ∧
      find_column_by_header g COST_HEAD_KEYWORDS = some chCol ∧
      out.budget_lines = processRows g bhCol (find_column_by_header g VENDOR_ROLE_KEYWORDS)
          chCol (find_month_column_map g) (sortedMonthNames (find_month_column_map g))
          (dataStartRow g bhCol) ∧
      out.monthly_data = globalMonthlyData out.budget_lines
          (sortedMonthNames (find_month_column_map g)) ∧
      out.cumulative_data = globalCumulativeData out.monthly_data
          (sortedMonthNames (find_month_column_map g)) ∧
      out.grand_total_planned = pyRound2 ((out.budget_lines.map fun l => l.2.total_planned).sum) ∧
      out.grand_total_spent = pyRound2 ((out.budget_lines.map fun l => l.2.total_spent).sum) := by
  simp only [process_uc_file] at h
  cases hb : find_column_by_header g BUDGET_HEAD_KEYWORDS with
  | none =>
    simp only [hb] at h
    exact Except.noConfusion h
  | some bhCol =>
    simp only [hb] at h
    cases hc : find_column_by_header g COST_HEAD_KEYWORDS with
    | none =>
      simp only [hc] at h
      exact Except.noConfusion h
    | some chCol =>
      simp only [hc] at h
      by_cases hmm : (find_month_column_map g).isEmpty = true
      · rw [if_pos hmm] at h
        exact Except.noConfusion h
      · rw [if_neg hmm] at h
        injection h with h
        subst h
        exact ⟨bhCol, chCol, rfl, rfl, rfl, rfl, rfl, rfl, rfl⟩

theorem ucOk?_eq {e : Except String UCOutput} {o : UCOutput} (h : ucOk? e = some o) :
    e = .ok o := by
  cases e with
  | ok o' =>
    simp only [ucOk?, Option.some.injEq] at h
    rw [h]
  | error msg => exact Option.noConfusion h

/-- C5: under sparse storage, a month whose per-row contribution has zero
planned and zero total-spent on every row is absent from the global
`monthly_data` and from every line's `monthly_data`; per row, a per-line
month entry is created/accumulated only when the row's contribution has
nonzero planned or nonzero total-spent; and a month with zero plan but
nonzero spend (500 on `gSparse`) is still present in both, while the
all-zero month "2025-05" of the same grid is absent. -/
theorem c5_sparse_storage :
    (∀ (ln : LineData) (contribs : List (String × MonthVals)) (m : String),
       (∀ p ∈ contribs, p.1 = m → p.2.planned = 0 ∧ p.2.total_spent = 0) →
       alookup m (lineAfterRow ln contribs).monthly_data = alookup m ln.monthly_data) ∧
    (∀ (g : Grid) (out : UCOutput) (m : String),
       process_uc_file g = .ok out →
       (∀ i, i < nRows g →
         (rowMonthVals g i (mmGet (find_month_column_map g) m)).planned = 0 ∧
         (rowMonthVals g i (mmGet (find_month_column_map g) m)).total_spent = 0) →
       alookup m out.monthly_data = none ∧
       ∀ p ∈ out.budget_lines, alookup m p.2.monthly_data = none) ∧
    (ucOk? (process_uc_file gSparse)).map (fun o =>
        (alookup "2025-04" o.monthly_data,
         o.budget_lines.map fun p => (p.1, alookup "2025-04" p.2.monthly_data),
         alookup "2025-05" o.monthly_data))
      = some (some ⟨0, 500, 0, 500, -500⟩,
              [("Infra", some ⟨0, 500, 0, 500, -500⟩)],
              none) := by
  refine ⟨lineAfterRow_lookup_unchanged, ?_, by with_unfolding_all decide⟩
  intro g out m hok hz
  obtain ⟨bhCol, chCol, hb, hc, hbl, hmd, hcum, hgp, hgs⟩ := process_ok hok
  have hlines : ∀ p ∈ out.budget_lines, alookup m p.2.monthly_data = none := by
    rw [hbl]
    unfold processRows
    apply foldl_invariant
      (fun lines => ∀ p ∈ lines, alookup m p.2.monthly_data = none)
      (processRow g bhCol (find_column_by_header g VENDOR_ROLE_KEYWORDS) chCol
        (find_month_column_map g) (sortedMonthNames (find_month_column_map g)))
    · simp
    · intro lines i hi hinv
      have hib : i < nRows g := List.mem_range.mp (List.mem_of_mem_drop hi)
      exact processRow_lookup_none hinv (hz i hib)
  refine ⟨?_, hlines⟩
  rw [hmd]
  apply globalMonthlyData_lookup_none
  rw [globalMonth_zero_of_none hlines]
  rfl

/-- Witness for `c5_sparse_storage` at concrete inputs: the all-zero month
"2025-05" of `gSparse`. -/
theorem c5_sparse_storage_witness :
    (alookup "2025-05" (lineAfterRow
        { budget_head := "Infra", cost_heads := [], vendor_role_category := none,
          total_planned := 0, total_spent := 0, total_variance := 0, monthly_data := [] }
        [("2025-05", ⟨0, 0, 0, 0, 0⟩)]).monthly_data
      = alookup "2025-05"
        ({ budget_head := "Infra", cost_heads := [], vendor_role_category := none,
           total_planned := 0, total_spent := 0, total_variance := 0,
           monthly_data := [] } : LineData).monthly_data) ∧
    (alookup "2025-05" outSparse.monthly_data = none ∧
      ∀ p ∈ outSparse.budget_lines, alookup "2025-05" p.2.monthly_data = none) :=
  ⟨c5_sparse_storage.1 _ [("2025-05", ⟨0, 0, 0, 0, 0⟩)] "2025-05"
      (by intro p hp hpm; simp only [List.mem_singleton] at hp; subst hp; exact ⟨rfl, rfl⟩),
   c5_sparse_storage.2.1 gSparse outSparse "2025-05"
      (ucOk?_eq (by with_unfolding_all decide))
      (by with_unfolding_all decide)⟩

/-! ## Claim C2: grand totals and the cumulative series

The backbone: every stored monetary value is an integer number of cents, on
which `round(x, 2)` is the identity, so the intermediate roundings vanish
and the differently grouped sums (per line, per month, cumulative) agree
exactly. -/

theorem is_non_zero_month_false_elim {mv : MonthVals}
    (h : is_non_zero_month mv = false) : mv.planned = 0 ∧ mv.total_spent = 0 := by
  rw [← Bool.not_eq_true, is_non_zero_month_eq] at h
  push_neg at h
  exact h

theorem mdAccum_keys (md : List (String × MonthVals)) (k : String) (mv : MonthVals) :
    (mdAccum md k mv).map Prod.fst =
      if k ∈ md.map Prod.fst then md.map Prod.fst else md.map Prod.fst ++ [k] := by
  induction md with
  | nil => simp [mdAccum]
  | cons p t ih =>
    obtain ⟨k', v⟩ := p
    by_cases hk : k' = k
    · subst hk
      simp [mdAccum]
    · simp only [mdAccum, if_neg hk, List.map_cons, ih]
      by_cases hmem : k ∈ t.map Prod.fst
      · rw [if_pos hmem, if_pos (List.mem_cons_of_mem _ hmem)]
      · have hnot : k ∉ k' :: t.map Prod.fst := by
          intro hcon
          rcases List.mem_cons.mp hcon with h | h
          · exact hk h.symm
          · exact hmem h
        rw [if_neg hmem, if_neg hnot, List.cons_append]

theorem mdAccum_mem {md : List (String × MonthVals)} {k : String} {mv : MonthVals} {p} :
    p ∈ mdAccum md k mv →
      p ∈ md ∨ ((p.1 = k ∨ p.1 ∈ md.map Prod.fst) ∧
        centsQ p.2.planned ∧ centsQ p.2.total_spent) := by
  induction md with
  | nil =>
    intro hp
    simp only [mdAccum, List.mem_singleton] at hp
    subst hp
    exact Or.inr ⟨Or.inl rfl, pyRound2_centsQ _, pyRound2_centsQ _⟩
  | cons q t ih =>
    obtain ⟨k', v⟩ := q
    intro hp
    by_cases hkk : k' = k
    · subst hkk
      simp only [mdAccum, if_pos rfl] at hp
      rcases List.mem_cons.mp hp with rfl | hmem
      · exact Or.inr ⟨Or.inl rfl, pyRound2_centsQ _, pyRound2_centsQ _⟩
      · exact Or.inl (List.mem_cons_of_mem _ hmem)
    · simp only [mdAccum, if_neg hkk] at hp
      rcases List.mem_cons.mp hp with rfl | hmem
      · exact Or.inl (List.mem_cons_self _ _)
      · rcases ih hmem with h | ⟨hkey, hc⟩
        · exact Or.inl (List.mem_cons_of_mem _ h)
        · refine Or.inr ⟨?_, hc⟩
          rcases hkey with h | h
          · exact Or.inl h
          · exact Or.inr (by simp [h])

theorem mdAccum_inv {L : List String} {md : List (String × MonthVals)}
    (h : MdInv L md) {k : String} (hk : k ∈ L) (mv : MonthVals) :
    MdInv L (mdAccum md k mv) := by
  obtain ⟨hnd, hval⟩ := h
  constructor
  · rw [mdAccum_keys]
    by_cases hmem : k ∈ md.map Prod.fst
    · rw [if_pos hmem]
      exact hnd
    · rw [if_neg hmem]
      simp [List.nodup_append, hnd, hmem]
  · intro p hp
    rcases mdAccum_mem hp with hmem | ⟨hkey, hcp, hcs⟩
    · exact hval p hmem
    · refine ⟨?_, hcp, hcs⟩
      rcases hkey with h | h
      · rw [h]; exact hk
      · obtain ⟨q, hq, hq1⟩ := List.mem_map.mp h
        rw [← hq1]
        exact (hval q hq).1

theorem mdAccum_sumP {md : List (String × MonthVals)}
    (hmd : ∀ p ∈ md, centsQ p.2.planned) {mv : MonthVals}
    (hmv : centsQ mv.planned) (k : String) :
    mdSumP (mdAccum md k mv) = mdSumP md + mv.planned := by
  induction md with
  | nil =>
    have hval : (mvAccum zeroVals mv).planned = mv.planned := by
      rw [show (mvAccum zeroVals mv).planned = pyRound2 ((0:ℚ) + mv.planned) from rfl,
        zero_add, pyRound2_cents hmv]
    simp [mdAccum, mdSumP, hval]
  | cons q t ih =>
    obtain ⟨k', v⟩ := q
    by_cases hkk : k' = k
    · subst hkk
      have hstep : mdAccum ((k', v) :: t) k' mv = (k', mvAccum v mv) :: t := by
        simp [mdAccum]
      rw [hstep]
      simp only [mdSumP, List.map_cons, List.sum_cons]
      rw [show (mvAccum v mv).planned = pyRound2 (v.planned + mv.planned) from rfl,
        pyRound2_cents (centsQ_add (hmd _ (List.mem_cons_self _ _)) hmv)]
      ring
    · simp only [mdAccum, if_neg hkk, mdSumP, List.map_cons, List.sum_cons]
      have := ih (fun p hp => hmd p (List.mem_cons_of_mem _ hp))
      simp only [mdSumP] at this
      rw [this]
      ring

theorem mdAccum_sumS {md : List (String × MonthVals)}
    (hmd : ∀ p ∈ md, centsQ p.2.total_spent) {mv : MonthVals}
    (hmv : centsQ mv.total_spent) (k : String) :
    mdSumS (mdAccum md k mv) = mdSumS md + mv.total_spent := by
  induction md with
  | nil =>
    have hval : (mvAccum zeroVals mv).total_spent = mv.total_spent := by
      rw [show (mvAccum zeroVals mv).total_spent = pyRound2 ((0:ℚ) + mv.total_spent) from rfl,
        zero_add, pyRound2_cents hmv]
    simp [mdAccum, mdSumS, hval]
  | cons q t ih =>
    obtain ⟨k', v⟩ := q
    by_cases hkk : k' = k
    · subst hkk
      have hstep : mdAccum ((k', v) :: t) k' mv = (k', mvAccum v mv) :: t := by
        simp [mdAccum]
      rw [hstep]
      simp only [mdSumS, List.map_cons, List.sum_cons]
      rw [show (mvAccum v mv).total_spent = pyRound2 (v.total_spent + mv.total_spent) from rfl,
        pyRound2_cents (centsQ_add (hmd _ (List.mem_cons_self _ _)) hmv)]
      ring
    · simp only [mdAccum, if_neg hkk, mdSumS, List.map_cons, List.sum_cons]
      have := ih (fun p hp => hmd p (List.mem_cons_of_mem _ hp))
      simp only [mdSumS] at this
      rw [this]
      ring

theorem mdFold_cons (md : List (String × MonthVals)) (p : String × MonthVals)
    (ps : List (String × MonthVals)) :
    mdFold md (p :: ps)
      = mdFold (if is_non_zero_month p.2 then mdAccum md p.1 p.2 else md) ps := rfl

/-- Net effect of one row's guarded month fold: the invariant is preserved
and the stored sums grow by the row's total contribution (contributions
skipped by the sparse guard are exactly the zero ones). -/
theorem mdFold_spec {L : List String} (contribs : List (String × MonthVals)) :
    ∀ md : List (String × MonthVals), MdInv L md →
      (∀ p ∈ contribs, p.1 ∈ L ∧ centsQ p.2.planned ∧ centsQ p.2.total_spent) →
      MdInv L (mdFold md contribs) ∧
      mdSumP (mdFold md contribs) = mdSumP md + (contribs.map fun p => p.2.planned).sum ∧
      mdSumS (mdFold md contribs) = mdSumS md + (contribs.map fun p => p.2.total_spent).sum := by
  induction contribs with
  | nil =>
    intro md hmd _
    exact ⟨hmd, by simp [mdFold], by simp [mdFold]⟩
  | cons p ps ih =>
    intro md hmd hcon
    obtain ⟨hkL, hcp, hcs⟩ := hcon p (List.mem_cons_self _ _)
    have hcon' : ∀ q ∈ ps, q.1 ∈ L ∧ centsQ q.2.planned ∧ centsQ q.2.total_spent :=
      fun q hq => hcon q (List.mem_cons_of_mem _ hq)
    rw [mdFold_cons]
    by_cases hnz : is_non_zero_month p.2 = true
    · rw [if_pos hnz]
      obtain ⟨hinv, hsp, hss⟩ := ih (mdAccum md p.1 p.2) (mdAccum_inv hmd hkL p.2) hcon'
      refine ⟨hinv, ?_, ?_⟩
      · rw [hsp, mdAccum_sumP (fun q hq => (hmd.2 q hq).2.1) hcp]
        simp only [List.map_cons, List.sum_cons]
        ring
      · rw [hss, mdAccum_sumS (fun q hq => (hmd.2 q hq).2.2) hcs]
        simp only [List.map_cons, List.sum_cons]
        ring
    · rw [if_neg hnz]
      obtain ⟨hp0, hs0⟩ := is_non_zero_month_false_elim (Bool.not_eq_true _ ▸ hnz)
      obtain ⟨hinv, hsp, hss⟩ := ih md hmd hcon'
      refine ⟨hinv, ?_, ?_⟩
      · rw [hsp]
        simp only [List.map_cons, List.sum_cons, hp0]
        ring
      · rw [hss]
        simp only [List.map_cons, List.sum_cons, hs0]
        ring

theorem addCostHead_total_planned (ln : LineData) (chv : Option String) :
    (addCostHead ln chv).total_planned = ln.total_planned := by
  cases chv with
  | none => rfl
  | some s =>
    simp only [addCostHead]
    split
    · rfl
    · split <;> rfl

theorem addCostHead_total_spent (ln : LineData) (chv : Option String) :
    (addCostHead ln chv).total_spent = ln.total_spent := by
  cases chv with
  | none => rfl
  | some s =>
    simp only [addCostHead]
    split
    · rfl
    · split <;> rfl

theorem addCostHead_inv {L : List String} {ln : LineData} {chv : Option String}
    (h : LineInv L ln) : LineInv L (addCostHead ln chv) := by
  unfold LineInv at h ⊢
  rw [addCostHead_total_planned, addCostHead_total_spent, addCostHead_monthly_data]
  exact h

/-- One data row preserves the line invariant. -/
theorem lineAfterRow_inv {L : List String} {ln : LineData}
    {contribs : List (String × MonthVals)} (h : LineInv L ln)
    (hcon : ∀ p ∈ contribs, p.1 ∈ L ∧ centsQ p.2.planned ∧ centsQ p.2.total_spent) :
    LineInv L (lineAfterRow ln contribs) := by
  obtain ⟨htp, hts, hmd, hsp, hss⟩ := h
  obtain ⟨hmd', hsp', hss'⟩ := mdFold_spec contribs ln.monthly_data hmd hcon
  have hcontribP : centsQ (contribs.map fun p => p.2.planned).sum :=
    centsQ_sum fun q hq => by
      obtain ⟨p, hp, hqp⟩ := List.mem_map.mp hq
      rw [← hqp]
      exact (hcon p hp).2.1
  have hcontribS : centsQ (contribs.map fun p => p.2.total_spent).sum :=
    centsQ_sum fun q hq => by
      obtain ⟨p, hp, hqp⟩ := List.mem_map.mp hq
      rw [← hqp]
      exact (hcon p hp).2.2
  have hltp : ln.total_planned + contribs.foldl (fun a p => a + p.2.planned) (0:ℚ)
      = ln.total_planned + (contribs.map fun p => p.2.planned).sum := by
    rw [foldl_add_map, zero_add]
  have hlts : ln.total_spent + contribs.foldl (fun a p => a + p.2.total_spent) (0:ℚ)
      = ln.total_spent + (contribs.map fun p => p.2.total_spent).sum := by
    rw [foldl_add_map, zero_add]
  refine ⟨?_, ?_, ?_, ?_, ?_⟩
  · exact pyRound2_centsQ _
  · exact pyRound2_centsQ _
  · exact hmd'
  · show pyRound2 (ln.total_planned + contribs.foldl (fun a p => a + p.2.planned) 0)
      = mdSumP (mdFold ln.monthly_data contribs)
    rw [hltp, pyRound2_cents (centsQ_add htp hcontribP), hsp', hsp]
  · show pyRound2 (ln.total_spent + contribs.foldl (fun a p => a + p.2.total_spent) 0)
      = mdSumS (mdFold ln.monthly_data contribs)
    rw [hlts, pyRound2_cents (centsQ_add hts hcontribS), hss', hss]

theorem LineInv_init (L : List String) (b : String) (vrc : Option String) :
    LineInv L ⟨b, [], vrc, 0, 0, 0, []⟩ :=
  ⟨centsQ_zero, centsQ_zero, ⟨by simp, by simp⟩, rfl, rfl⟩

/-- The row loop preserves the line invariant for every stored line. -/
theorem processRow_inv {g : Grid} {bhCol : Nat} {vrCol : Option Nat} {chCol : Nat}
    {mm : MonthMap} {L : List String} {lines : List (String × LineData)} {i : Nat}
    (hinv : ∀ p ∈ lines, LineInv L p.2) :
    ∀ p ∈ processRow g bhCol vrCol chCol mm L lines i, LineInv L p.2 := by
  simp only [processRow]
  by_cases h1 : (pdIsna (cellAt g i bhCol)
      || (stripStr (pyStr (cellAt g i bhCol))).data.isEmpty) = true
  · rw [if_pos h1]
    exact hinv
  · rw [if_neg h1]
    by_cases h2 : (strContains (lowerStr (pyStr (cellAt g i bhCol))) "total"
        || strContains (lowerStr (pyStr (cellAt g i bhCol))) "subtotal"
        || strContains (lowerStr (pyStr (cellAt g i bhCol))) "grand") = true
    · rw [if_pos h2]
      exact hinv
    · rw [if_neg h2]
      refine linesApply_pres (LineInv L) lines _ _ _ hinv (LineInv_init L _ _) ?_
      intro ln hln
      refine addCostHead_inv (lineAfterRow_inv hln ?_)
      intro p hp
      obtain ⟨m', hm', hpm⟩ := List.mem_map.mp hp
      rw [← hpm]
      exact ⟨hm', rowMonthVals_planned_cents g i _, rowMonthVals_spent_cents g i _⟩

theorem processRows_inv (g : Grid) (bhCol : Nat) (vrCol : Option Nat) (chCol : Nat)
    (mm : MonthMap) (L : List String) (startRow : Nat) :
    ∀ p ∈ processRows g bhCol vrCol chCol mm L startRow, LineInv L p.2 := by
  unfold processRows
  apply foldl_invariant (fun lines => ∀ p ∈ lines, LineInv L p.2)
    (processRow g bhCol vrCol chCol mm L)
  · simp
  · intro lines i hi hinv
    exact processRow_inv hinv

theorem mmInsert_keys (mm : MonthMap) (k raw : String) (role : Option Role) (c : Nat) :
    (mmInsert mm k raw role c).map Prod.fst =
      if k ∈ mm.map Prod.fst then mm.map Prod.fst else mm.map Prod.fst ++ [k] := by
  induction mm with
  | nil => simp [mmInsert]
  | cons p t ih =>
    obtain ⟨k', e⟩ := p
    by_cases hk : k' = k
    · subst hk
      simp [mmInsert]
    · simp only [mmInsert, if_neg hk, List.map_cons, ih]
      by_cases hmem : k ∈ t.map Prod.fst
      · rw [if_pos hmem, if_pos (List.mem_cons_of_mem _ hmem)]
      · have hnot : k ∉ k' :: t.map Prod.fst := by
          intro hcon
          rcases List.mem_cons.mp hcon with h | h
          · exact hk h.symm
          · exact hmem h
        rw [if_neg hmem, if_neg hnot, List.cons_append]

theorem mmInsert_keys_nodup {mm : MonthMap} (h : (mm.map Prod.fst).Nodup)
    (k raw : String) (role : Option Role) (c : Nat) :
    ((mmInsert mm k raw role c).map Prod.fst).Nodup := by
  rw [mmInsert_keys]
  by_cases hmem : k ∈ mm.map Prod.fst
  · rw [if_pos hmem]
    exact h
  · rw [if_neg hmem]
    simp [List.nodup_append, h, hmem]

theorem scanHeaderRow_keys_nodup (g : Grid) (r : Nat) :
    ((scanHeaderRow g r).map Prod.fst).Nodup := by
  unfold scanHeaderRow
  apply foldl_invariant (fun mm : MonthMap => (mm.map Prod.fst).Nodup) (scanStep g r)
  · simp
  · intro mm c hc hnd
    unfold scanStep
    cases hk : headerKey (cellAt g r c) with
    | none => exact hnd
    | some v =>
      obtain ⟨k, raw, role⟩ := v
      exact mmInsert_keys_nodup hnd k raw role c

theorem find_month_column_map_keys_nodup (g : Grid) :
    ((find_month_column_map g).map Prod.fst).Nodup := by
  unfold find_month_column_map
  apply foldl_invariant (fun mm : MonthMap => (mm.map Prod.fst).Nodup) (fmcmStep g)
  · simp
  · intro mm r hr hnd
    unfold fmcmStep
    by_cases he : mm.isEmpty = true
    · rw [if_pos he]
      by_cases hrn : r < nRows g
      · rw [if_pos hrn]
        exact scanHeaderRow_keys_nodup g r
      · rw [if_neg hrn]
        exact hnd
    · rw [if_neg he]
      exact hnd

theorem sortedMonthNames_nodup (g : Grid) :
    (sortedMonthNames (find_month_column_map g)).Nodup := by
  unfold sortedMonthNames
  have hperm := List.perm_insertionSort (fun a b => strLeB a b = true)
    ((find_month_column_map g).map Prod.fst)
  exact hperm.symm.nodup (find_month_column_map_keys_nodup g)

theorem alookup_mem {β : Type} {m : String} {md : List (String × β)} {v : β}
    (h : alookup m md = some v) : (m, v) ∈ md := by
  induction md with
  | nil => exact Option.noConfusion h
  | cons q t ih =>
    obtain ⟨k', v'⟩ := q
    by_cases hk : k' = m
    · subst hk
      simp only [alookup, if_true, eq_self_iff_true, Option.some.injEq] at h
      subst h
      exact List.mem_cons_self _ _
    · simp only [alookup, if_neg hk] at h
      exact List.mem_cons_of_mem _ (ih h)

/-- Summing a projection of the looked-up month entries over a duplicate-free
key list covering the stored keys recovers the stored sum. -/
theorem sum_lookup_eq_mdSum (f : MonthVals → ℚ) (hf : f zeroVals = 0) {L : List String}
    (hL : L.Nodup) :
    ∀ {md : List (String × MonthVals)}, MdInv L md →
      (L.map fun m => f ((alookup m md).getD zeroVals)).sum
        = (md.map fun p => f p.2).sum := by
  intro md
  induction md with
  | nil =>
    intro _
    have hmap : (L.map fun m => f ((alookup m ([] : List (String × MonthVals))).getD zeroVals))
        = L.map fun _ => (0:ℚ) :=
      List.map_congr_left fun m _ => hf
    rw [hmap]
    simp
  | cons q md' ih =>
    obtain ⟨k, v⟩ := q
    intro hinv
    obtain ⟨hnd, hval⟩ := hinv
    rw [List.map_cons] at hnd
    obtain ⟨hknotin, hndt⟩ := List.nodup_cons.mp hnd
    have hkL : k ∈ L := (hval (k, v) (List.mem_cons_self _ _)).1
    have hmap : (L.map fun m => f ((alookup m ((k, v) :: md')).getD zeroVals))
        = L.map fun m => if k = m then f v else f ((alookup m md').getD zeroVals) := by
      apply List.map_congr_left
      intro m hm
      by_cases hkm : k = m
      · simp [alookup, hkm]
      · simp [alookup, hkm]
    rw [hmap, sum_map_if_single (f v) (fun m => f ((alookup m md').getD zeroVals)) hL hkL
      (by
        show f ((alookup k md').getD zeroVals) = 0
        rw [alookup_eq_none_of_not_mem_keys hknotin]
        exact hf)]
    rw [ih ⟨hndt, fun p hp => hval p (List.mem_cons_of_mem _ hp)⟩]
    simp

theorem gmStep_eq (lines : List (String × LineData)) (acc : List (String × MonthVals))
    (m : String) :
    gmStep lines acc m = if is_non_zero_month (globalMonth lines m) = true
      then acc ++ [(m, globalMonth lines m)] else acc := rfl

theorem gmdFold_lookup_some (lines : List (String × LineData)) (m : String)
    {v : MonthVals} :
    ∀ (L : List String) (acc : List (String × MonthVals)), alookup m acc = some v →
      alookup m (L.foldl (gmStep lines) acc) = some v := by
  intro L
  induction L with
  | nil => exact fun acc h => h
  | cons a t ih =>
    intro acc h
    rw [List.foldl_cons]
    apply ih
    rw [gmStep_eq]
    by_cases hnz : is_non_zero_month (globalMonth lines a) = true
    · rw [if_pos hnz, alookup_append, h]
    · rw [if_neg hnz]
      exact h

theorem gmdFold_lookup_none (lines : List (String × LineData)) (m : String) :
    ∀ (L : List String) (acc : List (String × MonthVals)), alookup m acc = none →
      alookup m (L.foldl (gmStep lines) acc)
        = if m ∈ L ∧ is_non_zero_month (globalMonth lines m) = true
          then some (globalMonth lines m) else none := by
  intro L
  induction L with
  | nil =>
    intro acc h
    simpa using h
  | cons a t ih =>
    intro acc hacc
    rw [List.foldl_cons, gmStep_eq]
    by_cases hnz : is_non_zero_month (globalMonth lines a) = true
    · rw [if_pos hnz]
      by_cases ham : a = m
      · subst ham
        have hsome : alookup a (acc ++ [(a, globalMonth lines a)])
            = some (globalMonth lines a) := by
          rw [alookup_append, hacc]
          simp [alookup]
        rw [gmdFold_lookup_some lines a t _ hsome,
          if_pos ⟨List.mem_cons_self _ _, hnz⟩]
      · have hnone : alookup m (acc ++ [(a, globalMonth lines a)]) = none := by
          rw [alookup_append, hacc]
          simp [alookup, ham]
        rw [ih _ hnone]
        have hiff : (m ∈ a :: t ∧ is_non_zero_month (globalMonth lines m) = true)
            ↔ (m ∈ t ∧ is_non_zero_month (globalMonth lines m) = true) := by
          constructor
          · rintro ⟨hm, hq⟩
            rcases List.mem_cons.mp hm with h | h
            · exact absurd h.symm ham
            · exact ⟨h, hq⟩
          · rintro ⟨hm, hq⟩
            exact ⟨List.mem_cons_of_mem _ hm, hq⟩
        rw [if_congr hiff rfl rfl]
    · rw [if_neg hnz, ih _ hacc]
      by_cases ham : a = m
      · subst ham
        rw [if_neg (fun hcon => hnz hcon.2), if_neg (fun hcon => hnz hcon.2)]
      · have hiff : (m ∈ a :: t ∧ is_non_zero_month (globalMonth lines m) = true)
            ↔ (m ∈ t ∧ is_non_zero_month (globalMonth lines m) = true) := by
          constructor
          · rintro ⟨hm, hq⟩
            rcases List.mem_cons.mp hm with h | h
            · exact absurd h.symm ham
            · exact ⟨h, hq⟩
          · rintro ⟨hm, hq⟩
            exact ⟨List.mem_cons_of_mem _ hm, hq⟩
        rw [if_congr hiff rfl rfl]

theorem globalMonthlyData_lookup (lines : List (String × LineData)) (L : List String)
    (m : String) :
    alookup m (globalMonthlyData lines L)
      = if m ∈ L ∧ is_non_zero_month (globalMonth lines m) = true
        then some (globalMonth lines m) else none := by
  unfold globalMonthlyData
  exact gmdFold_lookup_none lines m L [] rfl

theorem cumFold_accums (monthly : List (String × MonthVals)) :
    ∀ (L : List String) (st : List (String × CumVals) × ℚ × ℚ),
      (L.foldl (cumStep monthly) st).2.1
        = st.2.1 + (L.map fun m => ((alookup m monthly).getD zeroVals).planned).sum := by
  intro L
  induction L with
  | nil =>
    intro st
    simp
  | cons a t ih =>
    intro st
    rw [List.foldl_cons, ih]
    cases hma : alookup a monthly with
    | some mv =>
      rw [show (cumStep monthly st a).2.1 = st.2.1 + mv.planned from by
        simp [cumStep, hma]]
      simp only [List.map_cons, List.sum_cons, hma, Option.getD_some]
      ring
    | none =>
      rw [show (cumStep monthly st a).2.1 = st.2.1 from by simp [cumStep, hma]]
      simp only [List.map_cons, List.sum_cons, hma, Option.getD_none]
      rw [show (zeroVals.planned : ℚ) = 0 from rfl]
      ring

theorem cumFold_last (monthly : List (String × MonthVals)) :
    ∀ (L : List String) (st : List (String × CumVals) × ℚ × ℚ),
      ((st.1 = [] ∧ st.2.1 = 0 ∧ st.2.2 = 0) ∨
        (∃ m cv, st.1.getLast? = some (m, cv) ∧
          cv.cumulative_planned = pyRound2 st.2.1 ∧
          cv.cumulative_spent = pyRound2 st.2.2)) →
      (((L.foldl (cumStep monthly) st).1 = [] ∧
          (L.foldl (cumStep monthly) st).2.1 = 0 ∧
          (L.foldl (cumStep monthly) st).2.2 = 0) ∨
        (∃ m cv, (L.foldl (cumStep monthly) st).1.getLast? = some (m, cv) ∧
          cv.cumulative_planned = pyRound2 (L.foldl (cumStep monthly) st).2.1 ∧
          cv.cumulative_spent = pyRound2 (L.foldl (cumStep monthly) st).2.2)) := by
  intro L
  induction L with
  | nil => exact fun st h => h
  | cons a t ih =>
    intro st h
    rw [List.foldl_cons]
    apply ih
    cases hma : alookup a monthly with
    | none =>
      rw [show cumStep monthly st a = st from by simp [cumStep, hma]]
      exact h
    | some mv =>
      right
      rw [show cumStep monthly st a
          = (st.1 ++ [(a, ⟨pyRound2 (st.2.1 + mv.planned), pyRound2 (st.2.2 + mv.total_spent),
              pyRound2 ((st.2.1 + mv.planned) - (st.2.2 + mv.total_spent))⟩)],
             st.2.1 + mv.planned, st.2.2 + mv.total_spent) from by simp [cumStep, hma]]
      refine ⟨a, ⟨pyRound2 (st.2.1 + mv.planned), pyRound2 (st.2.2 + mv.total_spent),
        pyRound2 ((st.2.1 + mv.planned) - (st.2.2 + mv.total_spent))⟩, ?_, rfl, rfl⟩
      rw [List.getLast?_concat]

/-- The cumulative series ends at the grand total: with duplicate-free month
names and the line invariant, the last stored cumulative planned value is
the rounded sum of the lines' planned totals. -/
theorem cumulative_eq_grand (L : List String) (hLnd : L.Nodup)
    (lines : List (String × LineData)) (hlinesInv : ∀ p ∈ lines, LineInv L p.2)
    (mlast : String) (cv : CumVals)
    (hlast : (globalCumulativeData (globalMonthlyData lines L) L).getLast?
      = some (mlast, cv)) :
    cv.cumulative_planned = pyRound2 ((lines.map fun p => p.2.total_planned).sum) := by
  have hSgP_cents : ∀ m : String,
      centsQ ((lines.map fun p => (lineMonth p.2 m).planned).sum) := by
    intro m
    apply centsQ_sum
    intro q hq
    obtain ⟨p, hp, hqp⟩ := List.mem_map.mp hq
    rw [← hqp]
    unfold lineMonth
    cases hal : alookup m p.2.monthly_data with
    | none => exact centsQ_zero
    | some v =>
      have hvmem := alookup_mem hal
      exact ((hlinesInv p hp).2.2.1.2 (m, v) hvmem).2.1
  have hline_sum : ∀ p ∈ lines,
      (L.map fun m => (lineMonth p.2 m).planned).sum = p.2.total_planned := by
    intro p hp
    obtain ⟨-, -, hmdinv, hsp, -⟩ := hlinesInv p hp
    rw [hsp]
    exact sum_lookup_eq_mdSum (fun mv => mv.planned) rfl hLnd hmdinv
  have hcp : (L.foldl (cumStep (globalMonthlyData lines L)) ([], 0, 0)).2.1
      = (L.map fun m =>
          ((alookup m (globalMonthlyData lines L)).getD zeroVals).planned).sum := by
    rw [cumFold_accums (globalMonthlyData lines L) L ([], 0, 0)]
    norm_num
  have hterm : ∀ m ∈ L,
      ((alookup m (globalMonthlyData lines L)).getD zeroVals).planned
        = (lines.map fun p => (lineMonth p.2 m).planned).sum := by
    intro m hm
    rw [globalMonthlyData_lookup]
    by_cases hnz : is_non_zero_month (globalMonth lines m) = true
    · rw [if_pos ⟨hm, hnz⟩]
      show pyRound2 ((lines.map fun p => (lineMonth p.2 m).planned).sum) = _
      exact pyRound2_cents (hSgP_cents m)
    · rw [if_neg (fun hcon => hnz hcon.2)]
      show (0:ℚ) = _
      have hfalse : is_non_zero_month (globalMonth lines m) = false := by
        simpa using hnz
      have h0 : pyRound2 ((lines.map fun p => (lineMonth p.2 m).planned).sum) = 0 :=
        (is_non_zero_month_false_elim hfalse).1
      rw [pyRound2_cents (hSgP_cents m)] at h0
      exact h0.symm
  have hcongr : (L.map fun m =>
      ((alookup m (globalMonthlyData lines L)).getD zeroVals).planned)
      = L.map fun m => (lines.map fun p => (lineMonth p.2 m).planned).sum :=
    List.map_congr_left hterm
  have hswap := list_sum_swap L lines fun m p => (lineMonth p.2 m).planned
  have hmaps : (lines.map fun p => (L.map fun m => (lineMonth p.2 m).planned).sum)
      = lines.map fun p => p.2.total_planned :=
    List.map_congr_left hline_sum
  have hfinal : (L.foldl (cumStep (globalMonthlyData lines L)) ([], 0, 0)).2.1
      = (lines.map fun p => p.2.total_planned).sum := by
    rw [hcp, hcongr, hswap, hmaps]
  have hQ := cumFold_last (globalMonthlyData lines L) L ([], 0, 0) (Or.inl ⟨rfl, rfl, rfl⟩)
  rcases hQ with ⟨hnil, -, -⟩ | ⟨m', cv', hlast', hp', -⟩
  · rw [show globalCumulativeData (globalMonthlyData lines L) L
        = (L.foldl (cumStep (globalMonthlyData lines L)) ([], 0, 0)).1 from rfl, hnil] at hlast
    exact Option.noConfusion hlast
  · rw [show globalCumulativeData (globalMonthlyData lines L) L
        = (L.foldl (cumStep (globalMonthlyData lines L)) ([], 0, 0)).1 from rfl,
      hlast'] at hlast
    injection hlast with hpair
    injection hpair with h1 h2
    subst h2
    rw [hp', hfinal]

/-- C2: for every grid the aggregation engine processes successfully, the
grand planned (and spent) total is the 2-decimal rounding of the sum of the
corresponding totals over all produced budget lines, and the cumulative
planned value of the last retained month equals the grand planned total.
The last hypothesis - the cumulative series has a last entry - is implied
by the claim's own proviso: when sparse storage does not drop the terminal
month, that month is retained and the series is nonempty. -/
theorem c2_grand_totals_and_cumulative (g : Grid) (out : UCOutput) (mlast : String)
    (cv : CumVals) (hok : process_uc_file g = .ok out)
    (hlast : out.cumulative_data.getLast? = some (mlast, cv)) :
    out.grand_total_planned
        = pyRound2 ((out.budget_lines.map fun p => p.2.total_planned).sum) ∧
    out.grand_total_spent
        = pyRound2 ((out.budget_lines.map fun p => p.2.total_spent).sum) ∧
    cv.cumulative_planned = out.grand_total_planned := by
  obtain ⟨bhCol, chCol, hb, hc, hbl, hmd, hcum, hgp, hgs⟩ := process_ok hok
  refine ⟨hgp, hgs, ?_⟩
  have hlinesInv : ∀ p ∈ out.budget_lines,
      LineInv (sortedMonthNames (find_month_column_map g)) p.2 := by
    rw [hbl]
    exact processRows_inv g bhCol (find_column_by_header g VENDOR_ROLE_KEYWORDS) chCol
      (find_month_column_map g) (sortedMonthNames (find_month_column_map g))
      (dataStartRow g bhCol)
  have hlast2 : (globalCumulativeData
      (globalMonthlyData out.budget_lines (sortedMonthNames (find_month_column_map g)))
      (sortedMonthNames (find_month_column_map g))).getLast? = some (mlast, cv) := by
    rw [← hmd, ← hcum]
    exact hlast
  have hmain := cumulative_eq_grand (sortedMonthNames (find_month_column_map g))
    (sortedMonthNames_nodup g) out.budget_lines hlinesInv mlast cv hlast2
  rw [hmain, hgp]

/-- Witness for `c2_grand_totals_and_cumulative` on the concrete sheet
`gAgg`. -/
theorem c2_grand_totals_and_cumulative_witness :
    outAgg.grand_total_planned
        = pyRound2 ((outAgg.budget_lines.map fun p => p.2.total_planned).sum) ∧
    outAgg.grand_total_spent
        = pyRound2 ((outAgg.budget_lines.map fun p => p.2.total_spent).sum) ∧
    (⟨150, 50, 100⟩ : CumVals).cumulative_planned = outAgg.grand_total_planned :=
  c2_grand_totals_and_cumulative gAgg outAgg "2025-04" ⟨150, 50, 100⟩
    (ucOk?_eq (by with_unfolding_all decide))
    (by with_unfolding_all decide)

end RiskAnalyser

